import Mathlib

/-!
Shallow embedding of `tools/github/import_anthropic_skills.py` and
`tools/github/list_issues.py` (Operit repository), with theorems settling the
frozen claims about the retrying HTTP client, pagination, the content picker,
metadata embedding/extraction, and the control flow of `main`.

Python strings are modelled as Lean `String` / `List Char`; Python string
methods (`strip`, `lower`, `split`, `in`, `endswith`) are re-implemented below
as executable Lean functions over `List Char`.  Whitespace is modelled as the
six ASCII whitespace characters recognised by Python's `str.strip()` and the
regex class `\s` (space, tab, newline, carriage return, vertical tab, form
feed); `str.lower()` is modelled as ASCII lowercasing, which agrees with
Python on all inputs appearing in the claims.  Machine floats appear in the
source only as the backoff delay `backoff_s = 1.0` (never mutated, multiplied
by powers of two, hence exact) and as the AI temperature (merely forwarded to
an abstracted endpoint); both are modelled with `Nat`/opaque data, see the
individual definitions.
-/

namespace Operit

abbrev Chars := List Char

/-- The six ASCII whitespace characters of Python's `str.strip()` / regex `\s`. -/
def pyIsSpace (c : Char) : Bool :=
  c = ' ' || c = '\t' || c = '\n' || c = '\r' || c = Char.ofNat 11 || c = Char.ofNat 12

/-- Python `s.lstrip()` on a character list. -/
def stripLeftChars (l : Chars) : Chars := l.dropWhile pyIsSpace

/-- Python `s.strip()` on a character list. -/
def pyStripChars (l : Chars) : Chars :=
  ((l.dropWhile pyIsSpace).reverse.dropWhile pyIsSpace).reverse

/-- Python `s.strip()`. -/
def pyStrip (s : String) : String := String.mk (pyStripChars s.data)

/-- Python `s.lower()` (ASCII lowercasing). -/
def lowerStr (s : String) : String := String.mk (s.data.map Char.toLower)

/-- Python substring test `pat in l` on character lists. -/
def isSubList (pat : Chars) : Chars → Bool
  | [] => pat.isEmpty
  | c :: cs => pat.isPrefixOf (c :: cs) || isSubList pat cs

/-- Python `s.split(",")` on a character list. -/
def splitComma : Chars → List Chars
  | [] => [[]]
  | c :: cs =>
      if c = ',' then [] :: splitComma cs
      else
        match splitComma cs with
        | [] => [[c]]
        | p :: ps => (c :: p) :: ps

/-- Python `s.endswith(pat)` on character lists. -/
def endsWithList (pat l : Chars) : Bool := pat.isSuffixOf l

/-!
## Content picker (`_pick_skill_markdown`, import_anthropic_skills.py lines 344-393)

The selection logic operates on the names of the `type == "file"` entries of a
directory listing; we model it on the list of file names (listing order).  The
surrounding HTTP fetch and raw download are outside the selection logic.
-/

/-- The dict comprehension
`lower = \x7bstr(it.get("name") or "").lower(): it for it in files\x7d`:
association list of (lowered name, name) in listing order. -/
def buildLowerDict (files : List String) : List (String × String) :=
  files.map (fun f => (lowerStr f, f))

/-- Lookup in a Python dict built by iterating an association list: a later
binding of the same key overrides an earlier one, so the search prefers the
rightmost binding. -/
def dictGet (k : String) : List (String × String) → Option String
  | [] => none
  | p :: rest =>
      match dictGet k rest with
      | some v => some v
      | none => if p.1 = k then some p.2 else none

/-- `find_name(names)`: try each preferred name in order against the
case-insensitive dict of listed files. -/
def findName (files : List String) : List String → Option String
  | [] => none
  | n :: rest =>
      match dictGet (lowerStr n) (buildLowerDict files) with
      | some f => some f
      | none => findName files rest

/-- Stable insertion into a list sorted by `key` (an element moves past
strictly larger keys only), modelling Python's stable `list.sort(key=...)`. -/
def insertSorted (key : String → String) (x : String) : List String → List String
  | [] => [x]
  | y :: ys => if key x ≤ key y then x :: y :: ys else y :: insertSorted key x ys

/-- Python's stable `list.sort(key=...)`. -/
def sortStable (key : String → String) : List String → List String
  | [] => []
  | x :: xs => insertSorted key x (sortStable key xs)

/-- The name chosen by `_pick_skill_markdown` from a directory's file names:
`find_name(["SKILL.md", "README.md", "readme.md"])`, else the first (after a
stable sort by lowered name) file whose lowered name ends in `.md`; `none`
models the empty selection `("", "")`. -/
def pickSkillMarkdownName (files : List String) : Option String :=
  match findName files ["SKILL.md", "README.md", "readme.md"] with
  | some f => some f
  | none =>
      let mdFiles := files.filter (fun f => endsWithList ".md".data (lowerStr f).data)
      (sortStable lowerStr mdFiles).head?

/-- First element with minimal key (ties go to the earlier element). -/
def firstMinBy (key : String → String) : List String → Option String
  | [] => none
  | x :: xs =>
      match firstMinBy key xs with
      | none => some x
      | some m => if key x ≤ key m then some x else some m

/-- The amended specification of the picker: case-insensitive matching of the
marker name `skill.md` (last listed match wins), then of `readme.md`
likewise, then the first file in listing order among those with minimal
lowered name ending in `.md`; empty if none. -/
def pickAmendedSpec (files : List String) : Option String :=
  match (files.filter (fun f => lowerStr f = "skill.md")).getLast? with
  | some f => some f
  | none =>
      match (files.filter (fun f => lowerStr f = "readme.md")).getLast? with
      | some f => some f
      | none =>
          firstMinBy lowerStr (files.filter (fun f => endsWithList ".md".data (lowerStr f).data))

theorem dictGet_buildLowerDict (k : String) (files : List String) :
    dictGet k (buildLowerDict files) = (files.filter (fun f => lowerStr f = k)).getLast? := by
  induction files with
  | nil => rfl
  | cons f fs ih =>
      show (match dictGet k (buildLowerDict fs) with
            | some v => some v
            | none => if lowerStr f = k then some f else none) =
          ((f :: fs).filter (fun f => lowerStr f = k)).getLast?
      rw [List.filter_cons, ih]
      cases hl : (fs.filter (fun f => lowerStr f = k)).getLast? with
      | some v => by_cases h : lowerStr f = k <;> simp [h, List.getLast?_cons, hl]
      | none =>
          have he : fs.filter (fun f => lowerStr f = k) = [] :=
            List.getLast?_eq_none_iff.mp hl
          by_cases h : lowerStr f = k <;> simp [h, he]

theorem head?_insertSorted (key : String → String) (x : String) (l : List String) :
    (insertSorted key x l).head? =
      match l.head? with
      | none => some x
      | some y => if key x ≤ key y then some x else some y := by
  cases l with
  | nil => rfl
  | cons y ys =>
      show (if key x ≤ key y then x :: y :: ys else y :: insertSorted key x ys).head? = _
      by_cases h : key x ≤ key y <;> simp [h]

theorem head?_sortStable (key : String → String) (l : List String) :
    (sortStable key l).head? = firstMinBy key l := by
  induction l with
  | nil => rfl
  | cons x xs ih =>
      show (insertSorted key x (sortStable key xs)).head? = _
      rw [head?_insertSorted, ih]
      cases hm : firstMinBy key xs <;> simp [firstMinBy, hm]

/-- C5 (amended): the picker's preference is case-insensitive: it selects the
last listed file whose lowered name is `skill.md`, else the last listed file
whose lowered name is `readme.md`, else the first file in listing order among
those with minimal lowered name ending in `.md`, else the empty selection. -/
theorem pickSkillMarkdownName_eq_amended (files : List String) :
    pickSkillMarkdownName files = pickAmendedSpec files := by
  unfold pickSkillMarkdownName pickAmendedSpec
  have h1 : lowerStr "SKILL.md" = "skill.md" := rfl
  have h2 : lowerStr "README.md" = "readme.md" := rfl
  have h3 : lowerStr "readme.md" = "readme.md" := rfl
  simp only [findName, h1, h2, h3, dictGet_buildLowerDict]
  cases hs : (files.filter (fun f => lowerStr f = "skill.md")).getLast? with
  | some f => simp
  | none =>
      cases hr : (files.filter (fun f => lowerStr f = "readme.md")).getLast? with
      | some f => simp
      | none => simp [head?_sortStable]

/-- C5: the claim as stated fails on the code.  The marker match is
case-insensitive, so from `["AAA.md", "SKILL.MD"]` (no exact `SKILL.md`,
`README.md` or `readme.md` present, lexicographically smallest markdown name
`AAA.md`) the picker returns `SKILL.MD`, not `AAA.md`; and from
`["README.md", "readme.md"]` it returns `readme.md`, not the claimed
preference `README.md`. -/
theorem pickSkillMarkdownName_counterexample :
    pickSkillMarkdownName ["AAA.md", "SKILL.MD"] = some "SKILL.MD" ∧
    "SKILL.MD" ≠ "AAA.md" ∧
    "SKILL.md" ∉ ["AAA.md", "SKILL.MD"] ∧
    "README.md" ∉ ["AAA.md", "SKILL.MD"] ∧
    "readme.md" ∉ ["AAA.md", "SKILL.MD"] ∧
    pickSkillMarkdownName ["README.md", "readme.md"] = some "readme.md" ∧
    "readme.md" ≠ "README.md" :=
  ⟨rfl, by decide, by decide, by decide, by decide, rfl, by decide⟩

/-!
## JSON values: `json.loads` / `json.dumps`

Number tokens are kept as their source text (`numRaw`); every number a claim
exercises is integral, so Python float formatting is never needed.
-/

inductive Json where
  | null
  | bool (b : Bool)
  | numRaw (tok : String)
  | str (s : String)
  | arr (items : List Json)
  | obj (members : List (String × Json))

/-- `dict.get(k)` on a parsed JSON object: `json.loads` builds the dict by
inserting members in order, so a duplicated key keeps its last member; the
lookup therefore prefers the rightmost binding. -/
def jGet (k : String) : List (String × Json) → Option Json
  | [] => none
  | p :: rest =>
      match jGet k rest with
      | some v => some v
      | none => if p.1 = k then some p.2 else none

/-- Python truthiness of a JSON-decoded value.  A JSON number is zero exactly
when its mantissa has no digit 1-9. -/
def pyTruthy : Json → Bool
  | .null => false
  | .bool b => b
  | .numRaw t => t.data.any (fun c => '1' ≤ c && c ≤ '9')
  | .str s => s ≠ ""
  | .arr items => !items.isEmpty
  | .obj members => !members.isEmpty

/-- Python `str()` of a JSON-decoded value, as used by
`_extract_skill_metadata_repo_url` (`str(v)`); exact for the scalar values the
claims exercise (container rendering abbreviated, float re-formatting not
modelled). -/
def pyStrJson : Json → String
  | .null => "None"
  | .bool true => "True"
  | .bool false => "False"
  | .numRaw t => t
  | .str s => s
  | .arr _ => "[...]"
  | .obj _ => "\x7b...\x7d"

/-- Lowercase hex digit. -/
def hexDigit (n : Nat) : Char :=
  if n < 10 then Char.ofNat (48 + n) else Char.ofNat (87 + n)

/-- `json.dumps` escaping of one character (with `ensure_ascii=False`): the
quote and the backslash escape to two characters, ASCII control characters to
`\b \t \n \f \r` or a `\u00XX` sequence, every other character stands for
itself. -/
def escChar (c : Char) : Chars :=
  if c = '"' then ['\\', '"']
  else if c = '\\' then ['\\', '\\']
  else if c = '\n' then ['\\', 'n']
  else if c = '\r' then ['\\', 'r']
  else if c = '\t' then ['\\', 't']
  else if c = Char.ofNat 8 then ['\\', 'b']
  else if c = Char.ofNat 12 then ['\\', 'f']
  else if c.toNat < 32 then ['\\', 'u', '0', '0', hexDigit (c.toNat / 16), hexDigit (c.toNat % 16)]
  else [c]

/-- `json.dumps` of a string (ensure_ascii=False). -/
def jsonDumpStringChars (s : String) : Chars :=
  '"' :: (s.data.flatMap escChar) ++ ['"']

/-- Comma-join of character chunks. -/
def joinComma : List Chars → Chars
  | [] => []
  | [p] => p
  | p :: ps => p ++ ',' :: joinComma ps

/-- `json.dumps(d, ensure_ascii=False, separators=(",", ":"))` of a flat
string-valued dict, members in insertion order. -/
def jsonDumpFlat (pairs : List (String × String)) : Chars :=
  '{' :: joinComma (pairs.map (fun p => jsonDumpStringChars p.1 ++ ':' :: jsonDumpStringChars p.2)) ++ ['}']

/-- Whitespace skipping of the JSON/regex scanners. -/
def skipWs (l : Chars) : Chars := l.dropWhile pyIsSpace

def hexVal (c : Char) : Option Nat :=
  if '0' ≤ c ∧ c ≤ '9' then some (c.toNat - 48)
  else if 'a' ≤ c ∧ c ≤ 'f' then some (c.toNat - 87)
  else if 'A' ≤ c ∧ c ≤ 'F' then some (c.toNat - 55)
  else none

/-- Helper: prepend a decoded character to a string-parse result. -/
def mapCons (c : Char) : Option (Chars × Chars) → Option (Chars × Chars)
  | some (s, rest) => some (c :: s, rest)
  | none => none

/-- Parse the remainder of a JSON string literal, after its opening quote
(strict mode: raw control characters are rejected, as `json.loads` does). -/
def parseStringBody : Chars → Option (Chars × Chars)
  | [] => none
  | c :: rest =>
      if c = '"' then some ([], rest)
      else if c = '\\' then
        match rest with
        | [] => none
        | e :: rest2 =>
            if e = '"' then mapCons '"' (parseStringBody rest2)
            else if e = '\\' then mapCons '\\' (parseStringBody rest2)
            else if e = '/' then mapCons '/' (parseStringBody rest2)
            else if e = 'n' then mapCons '\n' (parseStringBody rest2)
            else if e = 'r' then mapCons '\r' (parseStringBody rest2)
            else if e = 't' then mapCons '\t' (parseStringBody rest2)
            else if e = 'b' then mapCons (Char.ofNat 8) (parseStringBody rest2)
            else if e = 'f' then mapCons (Char.ofNat 12) (parseStringBody rest2)
            else if e = 'u' then
              match rest2 with
              | h1 :: h2 :: h3 :: h4 :: rest3 =>
                  match hexVal h1, hexVal h2, hexVal h3, hexVal h4 with
                  | some a, some b, some c2, some d =>
                      mapCons (Char.ofNat (4096 * a + 256 * b + 16 * c2 + d)) (parseStringBody rest3)
                  | _, _, _, _ => none
              | _ => none
            else none
      else if c.toNat < 32 then none
      else mapCons c (parseStringBody rest)

/-- Characters a JSON number token may contain. -/
def isNumChar (c : Char) : Bool :=
  c.isDigit || c = '-' || c = '+' || c = '.' || c = 'e' || c = 'E'

mutual

/-- Recursive-descent model of `json.loads`: parse one JSON value, returning
the remaining input.  Fuel bounds the recursion; `jsonLoads` supplies more
fuel than any input can consume. -/
def parseValue : Nat → Chars → Option (Json × Chars)
  | 0, _ => none
  | Nat.succ fuel, l =>
      match skipWs l with
      | [] => none
      | c :: rest =>
          if c = '{' then
            match skipWs rest with
            | '}' :: rest2 => some (.obj [], rest2)
            | other => parseMembers fuel other []
          else if c = '[' then
            match skipWs rest with
            | ']' :: rest2 => some (.arr [], rest2)
            | other => parseItems fuel other []
          else if c = '"' then
            match parseStringBody rest with
            | some (s, rest2) => some (.str (String.mk s), rest2)
            | none => none
          else if ('t' :: rest).take 4 == ['t', 'r', 'u', 'e'] && c = 't' then
            some (.bool true, rest.drop 3)
          else if ('f' :: rest).take 5 == ['f', 'a', 'l', 's', 'e'] && c = 'f' then
            some (.bool false, rest.drop 4)
          else if ('n' :: rest).take 4 == ['n', 'u', 'l', 'l'] && c = 'n' then
            some (.null, rest.drop 3)
          else
            let tok := (c :: rest).takeWhile isNumChar
            if tok ≠ [] && (c.isDigit || c = '-') && tok.any Char.isDigit then
              some (.numRaw (String.mk tok), (c :: rest).drop tok.length)
            else none

/-- Parse the members of a JSON object, positioned at a key. -/
def parseMembers : Nat → Chars → List (String × Json) → Option (Json × Chars)
  | 0, _, _ => none
  | Nat.succ fuel, l, acc =>
      match l with
      | '"' :: rest =>
          match parseStringBody rest with
          | some (k, rest2) =>
              match skipWs rest2 with
              | ':' :: rest3 =>
                  match parseValue fuel rest3 with
                  | some (v, rest4) =>
                      let acc2 := acc ++ [(String.mk k, v)]
                      match skipWs rest4 with
                      | ',' :: rest5 => parseMembers fuel (skipWs rest5) acc2
                      | '}' :: rest5 => some (.obj acc2, rest5)
                      | _ => none
                  | none => none
              | _ => none
          | none => none
      | _ => none

/-- Parse the items of a JSON array, positioned at a value. -/
def parseItems : Nat → Chars → List Json → Option (Json × Chars)
  | 0, _, _ => none
  | Nat.succ fuel, l, acc =>
      match parseValue fuel l with
      | some (v, rest) =>
          let acc2 := acc ++ [v]
          match skipWs rest with
          | ',' :: rest2 => parseItems fuel rest2 acc2
          | ']' :: rest2 => some (.arr acc2, rest2)
          | _ => none
      | none => none

end

/-- `json.loads`: parse a complete JSON document (trailing whitespace only). -/
def jsonLoadsChars (l : Chars) : Option Json :=
  match parseValue (l.length + 1) l with
  | some (v, rest) => if skipWs rest = [] then some v else none
  | none => none

def jsonLoads (s : String) : Option Json := jsonLoadsChars s.data

/-!
## The retrying HTTP client (`_http_json`, import_anthropic_skills.py lines 52-129)

The network is an oracle `world : Nat → HttpAttempt` giving the outcome of
each attempt: a response with body text and `link` header (the only response
header the callers read, lowercased by the code), an `urllib.error.HTTPError`
with status/reason/body, or a network/TLS-level failure
(`URLError`/`SSLError`/`OSError`) with its `repr` text.  `backoff_s` starts at
`1.0` and is never reassigned, so the float delay slept after attempt `i` is
exactly `backoff_s * (2 ** i) = 2 ^ i` seconds, modelled as `Nat`.
-/

inductive HttpAttempt where
  | success (text : String) (link : String)
  | httpError (code : Nat) (reason : String) (body : String)
  | netError (errRepr : String)

inductive HttpResult where
  | ok (body : Option Json) (link : String)
  | apiError (msg : String)
  | netFail (msg : String)
  | decodeError

/-- The body substring that triggers the 403 permission hint. -/
def patTrigger : Chars := "Resource not accessible by personal access token".data

/-- The appended permission-troubleshooting hint (lines 103-108). -/
def patHint : String :=
  "\n\nHint: Your GITHUB_TOKEN likely lacks permission to create issues in the target repo.\n- If you use a Fine-grained PAT: grant repository access to the target repo and enable 'Issues: Read and write'.\n- If you use a Classic PAT: ensure it has 'public_repo' (for public repos) or 'repo' (for private repos) scope.\n- Also ensure the token belongs to an account that has access to the target repo.\n"

/-- `RuntimeError(f"GitHub API error: HTTP ... ...\n...")` (line 116). -/
def apiErrorMsg (code : Nat) (reason body : String) : String :=
  "GitHub API error: HTTP " ++ toString code ++ " " ++ reason ++ "\n" ++ body

/-- The final network-failure `RuntimeError` (lines 124-129). -/
def netFailMsg (lastError : Option String) : String :=
  "Request failed (network/SSL). " ++
  "If you are behind a proxy, set HTTPS_PROXY/HTTP_PROXY. " ++
  "If TLS handshake keeps failing, try --github-tls12. As a last resort, try --github-insecure. " ++
  "Original: " ++ (match lastError with | some r => r | none => "None")

/-- The loop `for attempt in range(retries)` of `_http_json`, over the list of
remaining attempt numbers, accumulating the backoff delays slept.  Running off
the end of the attempt list (only possible after the `break` of a final
network error, or with a zero budget) reaches the closing network-failure
raise. -/
def httpGo (world : Nat → HttpAttempt) (retries : Nat)
    (lastError : Option String) (sleeps : List Nat) : List Nat → HttpResult × List Nat
  | [] => (.netFail (netFailMsg lastError), sleeps)
  | attempt :: restAttempts =>
      match world attempt with
      | .success text link =>
          if pyStripChars text.data = [] then (.ok none link, sleeps)
          else
            match jsonLoads text with
            | some j => (.ok (some j) link, sleeps)
            | none => (.decodeError, sleeps)
      | .httpError code reason body =>
          let body2 := if code = 403 && isSubList patTrigger body.data then body ++ patHint else body
          let retryable : Bool :=
            code = 403 || code = 429 || code = 500 || code = 502 || code = 503 || code = 504
          if retryable && attempt + 1 < retries then
            httpGo world retries lastError (sleeps ++ [2 ^ attempt]) restAttempts
          else (.apiError (apiErrorMsg code reason body2), sleeps)
      | .netError r =>
          if attempt + 1 < retries then
            httpGo world retries (some r) (sleeps ++ [2 ^ attempt]) restAttempts
          else (.netFail (netFailMsg (some r)), sleeps)

/-- `_http_json` with a retry budget (default 5): result and slept delays. -/
def httpJson (world : Nat → HttpAttempt) (retries : Nat) : HttpResult × List Nat :=
  httpGo world retries none [] (List.range retries)

/-- C1: with the default budget of 5, three 503 responses followed by a 200
yield the fourth response's parsed body, after backoff sleeps of 1, 2 and 4
seconds: strictly increasing, each double the previous. -/
theorem httpJson_503_503_503_ok (r1 r2 r3 b1 b2 b3 : String) (t : String) (j : Json)
    (link : String) (hparse : jsonLoads t = some j) (hne : pyStripChars t.data ≠ []) :
    httpJson (fun i =>
        match i with
        | 0 => .httpError 503 r1 b1
        | 1 => .httpError 503 r2 b2
        | 2 => .httpError 503 r3 b3
        | _ => .success t link) 5 =
      (.ok (some j) link, [1, 2, 4]) ∧
    List.Chain' (fun a b => a < b ∧ b = 2 * a) [1, 2, 4] := by
  constructor
  · rw [httpJson, show List.range 5 = [0, 1, 2, 3, 4] from rfl]
    simp [httpGo, hparse, hne]
  · simp [List.chain'_cons]

/-- C1 witness: the retry theorem at a concrete world. -/
theorem httpJson_503_503_503_ok_witness :
    jsonLoads "[]" = some (.arr []) ∧ pyStripChars "[]".data ≠ [] ∧
    httpJson (fun i =>
        match i with
        | 0 => .httpError 503 "Service Unavailable" "oops"
        | 1 => .httpError 503 "Service Unavailable" "oops"
        | 2 => .httpError 503 "Service Unavailable" "oops"
        | _ => .success "[]" "") 5 =
      (.ok (some (.arr [])) "", [1, 2, 4]) :=
  ⟨rfl, by decide,
    (httpJson_503_503_503_ok "Service Unavailable" "Service Unavailable" "Service Unavailable"
      "oops" "oops" "oops" "[]" (.arr []) "" rfl (by decide)).1⟩

/-- C4: counterexample to the claim as stated.  A 403 whose body contains the
personal-access-token permission substring is NOT failed immediately: 403 is
in the retryable status set, so the client sleeps (here one backoff delay of
1 second) and retries; with a success on the second attempt no error is
raised at all. -/
theorem httpJson_403_pat_retried_counterexample :
    httpJson (fun i =>
        match i with
        | 0 => .httpError 403 "Forbidden" "Resource not accessible by personal access token"
        | _ => .success "[]" "") 5 =
      (.ok (some (.arr [])) "", [1]) := rfl

/-- C4 (amended): an HTTP error status outside the retryable set
403/429/500/502/503/504 fails immediately — no retry, no backoff sleep — with
an error message carrying the status code, the reason phrase and the response
body; a 403 (the forbidden-with-rate-limit member of the set) is retried like
the other retryable statuses, and when the budget is exhausted with the
personal-access-token substring present in the body, the final error message
carries the status, reason, and the body augmented with the
permission-troubleshooting hint. -/
theorem httpJson_nonretryable_amended :
    (∀ (code : Nat) (reason body : String) (world : Nat → HttpAttempt) (retries : Nat),
        1 ≤ retries →
        code ∉ ([403, 429, 500, 502, 503, 504] : List Nat) →
        world 0 = .httpError code reason body →
        httpJson world retries = (.apiError (apiErrorMsg code reason body), [])) ∧
    (∀ reason body : String,
        isSubList patTrigger body.data = true →
        httpJson (fun _ => .httpError 403 reason body) 5 =
          (.apiError (apiErrorMsg 403 reason (body ++ patHint)), [1, 2, 4, 8])) := by
  constructor
  · intro code reason body world retries h1 hnot hw
    simp only [List.mem_cons, List.not_mem_nil, or_false, not_or] at hnot
    obtain ⟨h403, h429, h500, h502, h503, h504⟩ := hnot
    obtain ⟨k, rfl⟩ : ∃ k, retries = k + 1 := ⟨retries - 1, by omega⟩
    rw [httpJson, List.range_succ_eq_map, httpGo, hw]
    simp [h403, h429, h500, h502, h503, h504]
  · intro reason body htrig
    rw [httpJson, show List.range 5 = [0, 1, 2, 3, 4] from rfl]
    simp [httpGo, htrig]

/-!
## Link-header pagination (`_parse_link_next` lines 168-177 of both files,
`_iter_issues` lines 180-211 / 127-166)

`_iter_issues` repeatedly performs a successful `_http_json`/`_request_json`
GET; the server is abstracted as `fetch : url → Option (parsed list body,
link header)`, `none` standing for a URL the server does not answer with a
JSON list.
-/

/-- Helper for `takeToGt`. -/
def mapConsPair (c : Char) : Option (Chars × Chars) → Option (Chars × Chars)
  | some (g, rest) => some (c :: g, rest)
  | none => none

/-- Scan to the first `>`: the candidate regex group and the remainder. -/
def takeToGt : Chars → Option (Chars × Chars)
  | [] => none
  | c :: rest => if c = '>' then some ([], rest) else mapConsPair c (takeToGt rest)

/-- `re.search(r"<([^>]+)>", part)`: the leftmost `<` followed by at least one
non-`>` character and a `>`; its group is everything up to that `>`. -/
def findAngle : Chars → Option Chars
  | [] => none
  | c :: rest =>
      if c = '<' then
        match takeToGt rest with
        | some (g, _) => if g = [] then findAngle rest else some g
        | none => findAngle rest
      else findAngle rest

def relNextQuoted : Chars := "rel=\"next\"".data

def relNextBare : Chars := "rel=next".data

/-- The loop body of `_parse_link_next` over the comma-split, stripped parts:
the first part containing a rel-next token and an angle-bracketed group
yields that group. -/
def findNextInParts : List Chars → Chars
  | [] => []
  | p :: ps =>
      if isSubList relNextQuoted p || isSubList relNextBare p then
        match findAngle p with
        | some u => u
        | none => findNextInParts ps
      else findNextInParts ps

/-- `_parse_link_next`. -/
def parseLinkNext (h : String) : String :=
  if h.data = [] then ""
  else String.mk (findNextInParts ((splitComma h.data).map pyStripChars))

/-- `"pull_request" in it` for a decoded JSON object. -/
def jsonHasKey (k : String) : Json → Bool
  | .obj members => members.any (fun p => p.1 = k)
  | _ => false

def isObj : Json → Bool
  | .obj _ => true
  | _ => false

/-- One page of the `_iter_issues` aggregation loop: non-dict items and items
carrying a `pull_request` field are skipped. -/
def filterIssuesPage (data : List Json) : List Json :=
  data.filter (fun it => isObj it && !jsonHasKey "pull_request" it)

/-- The `while url:` loop of `_iter_issues`, with fuel bounding the number of
fetches. -/
def iterIssuesGo (fetch : String → Option (List Json × String)) :
    Nat → String → List Json → Option (List Json)
  | 0, url, out => if url = "" then some out else none
  | fuel + 1, url, out =>
      if url = "" then some out
      else
        match fetch url with
        | some (data, link) =>
            iterIssuesGo fetch fuel (parseLinkNext link) (out ++ filterIssuesPage data)
        | none => none

/-- `_iter_issues` from a start URL. -/
def iterIssues (fetch : String → Option (List Json × String)) (fuel : Nat)
    (startUrl : String) : Option (List Json) :=
  iterIssuesGo fetch fuel startUrl []

/-- The i-th page URL of the model server (unary-coded, pairwise distinct). -/
def pageUrl (i : Nat) : String := String.mk (List.replicate (i + 1) 'u')

/-- The `link` response header of page `i` of an `n`-page listing: a
`rel="next"` entry pointing at page `i+1`, absent on the last page. -/
def linkFor (n i : Nat) : String :=
  if i + 1 < n then "<" ++ pageUrl (i + 1) ++ ">; rel=\"next\"" else ""

/-- A server holding `pages.length` pages chained by `rel="next"` links. -/
def serverOf (pages : List (List Json)) (url : String) : Option (List Json × String) :=
  if 1 ≤ url.length ∧ url.length ≤ pages.length ∧ url = pageUrl (url.length - 1) then
    some (pages.getD (url.length - 1) [], linkFor pages.length (url.length - 1))
  else none

theorem pyStripChars_eq_self (l : Chars)
    (h1 : ∀ c, l.head? = some c → pyIsSpace c = false)
    (h2 : ∀ c, l.getLast? = some c → pyIsSpace c = false) :
    pyStripChars l = l := by
  have d1 : l.dropWhile pyIsSpace = l := by
    cases l with
    | nil => rfl
    | cons a t => rw [List.dropWhile_cons, h1 a rfl]; simp
  have d2 : l.reverse.dropWhile pyIsSpace = l.reverse := by
    cases hr : l.reverse with
    | nil => rfl
    | cons a t =>
        have hga : l.getLast? = some a := by
          rw [← List.head?_reverse, hr]; rfl
        rw [List.dropWhile_cons, h2 a hga]; simp
  unfold pyStripChars
  rw [d1, d2, List.reverse_reverse]

theorem splitComma_no_comma (l : Chars) (h : ',' ∉ l) : splitComma l = [l] := by
  induction l with
  | nil => rfl
  | cons c cs ih =>
      have hc : ¬ c = ',' := fun e => h (by simp [e])
      have hcs : ',' ∉ cs := fun m => h (by simp [m])
      simp only [splitComma, if_neg hc, ih hcs]

theorem isPrefixOf_self_append (pat ys : Chars) : pat.isPrefixOf (pat ++ ys) = true := by
  induction pat with
  | nil => simp
  | cons c cs ih => simp [List.isPrefixOf, ih]

theorem isSubList_append (pat ys xs : Chars) : isSubList pat (xs ++ pat ++ ys) = true := by
  induction xs with
  | nil =>
      cases pat with
      | nil =>
          cases ys with
          | nil => rfl
          | cons b bs => simp [isSubList]
      | cons c cs => simp [isSubList, isPrefixOf_self_append]
  | cons x xs ih =>
      have ih2 : isSubList pat (xs ++ (pat ++ ys)) = true := by
        rw [← List.append_assoc]; exact ih
      simp [isSubList, List.append_eq, ih2]

theorem takeToGt_append (g r : Chars) (h : '>' ∉ g) : takeToGt (g ++ '>' :: r) = some (g, r) := by
  induction g with
  | nil => simp [takeToGt]
  | cons c cs ih =>
      have hc : ¬ c = '>' := fun e => h (by simp [e])
      have hcs : '>' ∉ cs := fun m => h (by simp [m])
      simp [takeToGt, List.append_eq, hc, ih hcs, mapConsPair]

theorem findAngle_angle (g r : Chars) (hn : g ≠ []) (h : '>' ∉ g) :
    findAngle ('<' :: (g ++ '>' :: r)) = some g := by
  simp [findAngle, takeToGt_append g r h, hn]

theorem pageUrl_length (i : Nat) : (pageUrl i).length = i + 1 := by
  simp [pageUrl, String.length]

theorem pageUrl_ne_empty (i : Nat) : pageUrl i ≠ "" := by
  simp [String.ext_iff, pageUrl]

theorem serverOf_pageUrl (pages : List (List Json)) (i : Nat) (h : i < pages.length) :
    serverOf pages (pageUrl i) = some (pages.getD i [], linkFor pages.length i) := by
  unfold serverOf
  rw [pageUrl_length, if_pos ⟨by omega, by omega, by simp⟩]
  simp

/-- The generated `rel="next"` link header of a non-final page parses back to
the next page's URL. -/
theorem parseLinkNext_linkFor (n i : Nat) (h : i + 1 < n) :
    parseLinkNext (linkFor n i) = pageUrl (i + 1) := by
  unfold linkFor
  rw [if_pos h]
  have hdata : ("<" ++ pageUrl (i + 1) ++ ">; rel=\"next\"").data
      = '<' :: (List.replicate (i + 2) 'u' ++ ">; rel=\"next\"".data) := by
    rw [String.data_append, String.data_append]
    show ['<'] ++ List.replicate (i + 2) 'u' ++ _ = _
    simp
  have hne : ("<" ++ pageUrl (i + 1) ++ ">; rel=\"next\"").data ≠ [] := by
    rw [hdata]; simp
  unfold parseLinkNext
  rw [if_neg hne, hdata]
  have hcomma : ',' ∉ '<' :: (List.replicate (i + 2) 'u' ++ ">; rel=\"next\"".data) := by
    intro m
    rcases List.mem_cons.mp m with e | m2
    · exact absurd e (by decide)
    rcases List.mem_append.mp m2 with m3 | m4
    · exact absurd (List.eq_of_mem_replicate m3) (by decide)
    · revert m4; decide
  rw [splitComma_no_comma _ hcomma]
  have hstrip : pyStripChars ('<' :: (List.replicate (i + 2) 'u' ++ ">; rel=\"next\"".data))
      = '<' :: (List.replicate (i + 2) 'u' ++ ">; rel=\"next\"".data) := by
    refine pyStripChars_eq_self _ (fun c hc => ?_) (fun c hc => ?_)
    · simp at hc; rw [← hc]; rfl
    · rw [List.getLast?_cons, List.getLast?_append] at hc
      have : (">; rel=\"next\"".data).getLast? = some '"' := by decide
      rw [this] at hc
      simp at hc
      rw [← hc]; rfl
  simp only [List.map_cons, List.map_nil, hstrip]
  have hsub : isSubList relNextQuoted
      ('<' :: (List.replicate (i + 2) 'u' ++ ">; rel=\"next\"".data)) = true := by
    have hsplit : '<' :: (List.replicate (i + 2) 'u' ++ ">; rel=\"next\"".data)
        = ('<' :: List.replicate (i + 2) 'u' ++ ">; ".data) ++ relNextQuoted ++ [] := by
      simp [relNextQuoted]
    rw [hsplit]
    exact isSubList_append _ _ _
  have hangle : findAngle ('<' :: (List.replicate (i + 2) 'u' ++ ">; rel=\"next\"".data))
      = some (List.replicate (i + 2) 'u') := by
    have : List.replicate (i + 2) 'u' ++ ">; rel=\"next\"".data
        = List.replicate (i + 2) 'u' ++ '>' :: "; rel=\"next\"".data := rfl
    rw [this]
    refine findAngle_angle _ _ (by simp) ?_
    intro m
    exact absurd (List.eq_of_mem_replicate m) (by decide)
  simp only [findNextInParts, hsub, Bool.true_or, if_pos, hangle]
  rfl

/-- C2: for a server of `N ≥ 1` pages of issue objects chained by
`rel="next"` link headers, `_iter_issues` aggregates exactly the
concatenation of the pages in order with every item carrying a
`pull_request` field removed, fetching exactly `N` pages (the loop stops at
the page whose link header has no `rel="next"` entry). -/
theorem iterIssues_concat_pages (pages : List (List Json)) (hne : pages ≠ [])
    (hobj : ∀ it ∈ pages.flatten, isObj it = true) :
    iterIssues (serverOf pages) pages.length (pageUrl 0) =
      some (pages.flatten.filter (fun it => !jsonHasKey "pull_request" it)) := by
  have key : ∀ (k i : Nat) (out : List Json), i < pages.length → k = pages.length - i →
      iterIssuesGo (serverOf pages) k (pageUrl i) out =
        some (out ++ (pages.drop i).flatten.filter
          (fun it => isObj it && !jsonHasKey "pull_request" it)) := by
    intro k
    induction k with
    | zero => intro i out hi hk; omega
    | succ k ih =>
        intro i out hi hk
        show (if pageUrl i = "" then some out else _) = _
        rw [if_neg (pageUrl_ne_empty i), serverOf_pageUrl pages i hi]
        show iterIssuesGo _ k (parseLinkNext (linkFor pages.length i))
            (out ++ filterIssuesPage (pages.getD i [])) = _
        have hgetD : pages.getD i [] = pages[i] := List.getD_eq_getElem pages [] hi
        have hdrop : pages.drop i = pages[i] :: pages.drop (i + 1) :=
          List.drop_eq_getElem_cons hi
        by_cases hlast : i + 1 < pages.length
        · rw [parseLinkNext_linkFor _ _ hlast, ih (i + 1) _ hlast (by omega)]
          rw [hgetD, hdrop]
          simp only [filterIssuesPage, List.flatten_cons, List.filter_append, List.append_assoc]
        · have hk0 : k = 0 := by omega
          have hend : linkFor pages.length i = "" := by
            unfold linkFor; rw [if_neg hlast]
          rw [hend, hk0]
          show (if ("" : String) = "" then _ else _) = _
          rw [if_pos rfl, hgetD, hdrop]
          have hdropNil : pages.drop (i + 1) = [] := List.drop_eq_nil_of_le (by omega)
          simp [filterIssuesPage, hdropNil]
  have h0 : 0 < pages.length := List.length_pos.mpr hne
  rw [iterIssues, key pages.length 0 [] h0 (by omega)]
  rw [List.drop_zero, List.nil_append]
  congr 1
  refine List.filter_congr (fun it hmem => ?_)
  rw [hobj it hmem, Bool.true_and]

/-- C2 witness: three concrete pages; the second page's pull-request item is
removed, the rest concatenate in order. -/
theorem iterIssues_concat_pages_witness :
    iterIssues (serverOf [[Json.obj [("number", Json.numRaw "1")]],
        [Json.obj [("number", Json.numRaw "2"), ("pull_request", Json.null)],
         Json.obj [("number", Json.numRaw "3")]],
        [Json.obj [("number", Json.numRaw "4")]]]) 3 (pageUrl 0) =
      some ([[Json.obj [("number", Json.numRaw "1")]],
        [Json.obj [("number", Json.numRaw "2"), ("pull_request", Json.null)],
         Json.obj [("number", Json.numRaw "3")]],
        [Json.obj [("number", Json.numRaw "4")]]].flatten.filter
          (fun it => !jsonHasKey "pull_request" it)) :=
  iterIssues_concat_pages _ (by simp) (by
    intro it hmem
    simp [List.flatten] at hmem
    rcases hmem with h | h | h | h <;> rw [h] <;> rfl)

/-- C4 witness: the amended theorem at concrete inputs: an immediate 404
failure with no sleeps, and an exhausted 403 with the augmented message. -/
theorem httpJson_nonretryable_amended_witness :
    httpJson (fun _ => .httpError 404 "Not Found" "missing") 5 =
      (.apiError (apiErrorMsg 404 "Not Found" "missing"), []) ∧
    httpJson (fun _ =>
        .httpError 403 "Forbidden" "Resource not accessible by personal access token") 5 =
      (.apiError (apiErrorMsg 403 "Forbidden"
          ("Resource not accessible by personal access token" ++ patHint)), [1, 2, 4, 8]) :=
  ⟨httpJson_nonretryable_amended.1 404 "Not Found" "missing" _ 5 (by omega) (by decide) rfl,
   httpJson_nonretryable_amended.2 "Forbidden"
     "Resource not accessible by personal access token" (by decide)⟩

/-!
## Metadata embedding and extraction
(`_build_operit_issue_body` lines 462-506,
`_extract_skill_metadata_repo_url` lines 288-302)

The extractor runs `re.search(r"<!--\s*operit-skill-json:\s*(\x7b.*?\x7d)\s*-->",
body, re.DOTALL)` and `json.loads` on the group.  With the lazy quantifier,
the group ends at the first closing brace that is followed by optional
whitespace and `-->`; on failure at one candidate the scan restarts one
character later.
-/

/-- After the opening brace: extend the lazy `.*?` to each following closing
brace in turn until `\s*-->` matches after it; the returned first component is
the text strictly between the braces. -/
def findClose : Chars → Option (Chars × Chars)
  | [] => none
  | c :: rest =>
      if c = '}' then
        if ("-->".data).isPrefixOf (skipWs rest) then some ([], rest)
        else mapConsPair c (findClose rest)
      else mapConsPair c (findClose rest)

/-- Attempt the metadata regex match anchored at the head of `l`; returns the
group `(\x7b.*?\x7d)` on success. -/
def matchMetaAt (l : Chars) : Option Chars :=
  if ("<!--".data).isPrefixOf l then
    if ("operit-skill-json:".data).isPrefixOf (skipWs (l.drop 4)) then
      match skipWs ((skipWs (l.drop 4)).drop 18) with
      | '{' :: rest =>
          match findClose rest with
          | some (g, _) => some ('{' :: (g ++ ['}']))
          | none => none
      | _ => none
    else none
  else none

/-- `re.search`: try the match at each position, leftmost success wins. -/
def searchMeta : Chars → Option Chars
  | [] => none
  | c :: rest =>
      match matchMetaAt (c :: rest) with
      | some g => some g
      | none => searchMeta rest

/-- `meta.get("repositoryUrl") or meta.get("repoUrl") or ""`:
`dict.get` yields `None` when the key is missing, and `or` takes the first
truthy operand. -/
def metaRepoUrlValue (members : List (String × Json)) : Json :=
  let v1 := match jGet "repositoryUrl" members with | some v => v | none => .null
  if pyTruthy v1 then v1
  else
    let v2 := match jGet "repoUrl" members with | some v => v | none => .null
    if pyTruthy v2 then v2 else .str ""

/-- `_extract_skill_metadata_repo_url`: empty result for an empty body, a
missing match, malformed JSON (the `json.loads` exception is caught), or a
non-dict value; otherwise `str(v).strip()` of the key chain. -/
def extractSkillMetadataRepoUrl (issueBody : String) : String :=
  if issueBody.data = [] then ""
  else
    match searchMeta issueBody.data with
    | none => ""
    | some raw =>
        match jsonLoadsChars raw with
        | none => ""
        | some (.obj members) => pyStrip (pyStrJson (metaRepoUrlValue members))
        | some _ => ""

/-- `"\n".join(lines)`. -/
def joinLines : List String → String
  | [] => ""
  | [x] => x
  | x :: xs => x ++ "\n" ++ joinLines xs

/-- `_build_operit_issue_body(description, repository_url, version)`.  The
current time string `datetime.now().strftime(...)` is passed in as `nowStr`. -/
def buildOperitIssueBody (description repositoryUrl version nowStr : String) : String :=
  let metadata := [("repositoryUrl", repositoryUrl), ("category", ""),
                   ("tags", ""), ("version", version)]
  let lines :=
    ["<!-- operit-skill-json: " ++ String.mk (jsonDumpFlat metadata) ++ " -->",
     "<!-- operit-parser-version: " ++ version ++ " -->",
     "",
     "## ðŸ“‹ Skill ä¿¡æ¯",
     "",
     "**æè¿°:** " ++ description,
     ""]
    ++ (if repositoryUrl ≠ "" then
         ["## ðŸ”— ä»“åº“ä¿¡æ¯", "", "**ä»“åº“åœ°å€:** " ++ repositoryUrl, ""]
        else [])
    ++ (if repositoryUrl ≠ "" then
         ["## ðŸ“¦ å®‰è£…æ–¹å¼", "",
          "1. æ‰“å¼€ Operit â†’ åŒ…ç®¡ç† â†’ Skills",
          "2. ç‚¹å‡»ã€Œå¯¼å…¥ Skillã€â†’ ã€Œä»Žä»“åº“å¯¼å…¥ã€",
          "3. è¾“å…¥ä»“åº“åœ°å€ï¼š`" ++ repositoryUrl ++ "`",
          "4. ç¡®è®¤å¯¼å…¥", ""]
        else [])
    ++ ["## ðŸ› ï¸ æŠ€æœ¯ä¿¡æ¯", "",
        "| é¡¹ç›® | å€¼ |",
        "|------|-----|",
        "| å‘å¸ƒå¹³å° | Operit Skill å¸‚åœº |",
        "| è§£æžç‰ˆæœ¬ | 1.0 |",
        "| å‘å¸ƒæ—¶é—´ | " ++ nowStr ++ " |",
        "| çŠ¶æ€ | â³ Pending Review |",
        ""]
  joinLines lines

/-- A closing brace followed by optional whitespace and `-->` somewhere in the
text: the pattern that makes the lazy regex group end early. -/
def hasBadClose : Chars → Bool
  | [] => false
  | c :: rest => (c = '}' && ("-->".data).isPrefixOf (skipWs rest)) || hasBadClose rest

/-- The serialized members of a flat string-valued object (the inside of
`jsonDumpFlat`, braces excluded). -/
def dumpMembersChars (pairs : List (String × String)) : Chars :=
  joinComma (pairs.map (fun p => jsonDumpStringChars p.1 ++ ':' :: jsonDumpStringChars p.2))

theorem skipWs_append (cs : Chars) (d : Char) (xs : Chars) (hd : pyIsSpace d = false) :
    skipWs (cs ++ d :: xs) = skipWs cs ++ d :: xs := by
  induction cs with
  | nil => simp [skipWs, List.dropWhile_cons, hd]
  | cons c cs ih =>
      by_cases hc : pyIsSpace c = true
      · simp [skipWs, List.dropWhile_cons, hc] at ih ⊢; exact ih
      · simp [skipWs, List.dropWhile_cons, Bool.eq_false_iff.mpr hc]

theorem arrowPrefix_append (y : Chars) (d : Char) (B : Chars) (hd1 : d ≠ '-') (hd2 : d ≠ '>') :
    ("-->".data).isPrefixOf (y ++ d :: B) = ("-->".data).isPrefixOf y := by
  match y with
  | [] => simp [List.isPrefixOf, Ne.symm hd1]
  | [a] => simp [List.isPrefixOf, Ne.symm hd1]
  | [a, b] => simp [List.isPrefixOf, Ne.symm hd2]
  | a :: b :: c :: rest => simp [List.isPrefixOf]

theorem hasBadClose_append_no_brace (a x : Chars) (h : '}' ∉ a) :
    hasBadClose (a ++ x) = hasBadClose x := by
  induction a with
  | nil => rfl
  | cons c cs ih =>
      have hc : ¬ c = '}' := fun e => h (by simp [e])
      have hcs : '}' ∉ cs := fun m => h (by simp [m])
      simp [hasBadClose, hc, ih hcs]

theorem hasBadClose_append_blocked (E B : Chars) (d : Char)
    (hdws : pyIsSpace d = false) (hd1 : d ≠ '-') (hd2 : d ≠ '>') :
    hasBadClose (E ++ d :: B) = (hasBadClose E || hasBadClose (d :: B)) := by
  induction E with
  | nil => simp [hasBadClose]
  | cons c cs ih =>
      show hasBadClose (c :: (cs ++ d :: B)) = _
      simp only [hasBadClose, skipWs_append cs d B hdws,
        arrowPrefix_append (skipWs cs) d B hd1 hd2, ih]
      rw [Bool.or_assoc]

theorem escChar_self_or_backslash (c : Char) :
    escChar c = [c] ∨ ∃ t, escChar c = '\\' :: t := by
  unfold escChar
  split_ifs <;> first | exact Or.inr ⟨_, rfl⟩ | exact Or.inl rfl

theorem hexDigit_ne_brace : ∀ n < 16, hexDigit n ≠ '}' := by decide

theorem brace_not_mem_escChar (c : Char) (h : c ≠ '}') : '}' ∉ escChar c := by
  unfold escChar
  split_ifs with h1 h2 h3 h4 h5 h6 h7 h8
  · decide
  · decide
  · decide
  · decide
  · decide
  · decide
  · decide
  · intro m
    rcases List.mem_cons.mp m with e | m
    · exact absurd e (by decide)
    rcases List.mem_cons.mp m with e | m
    · exact absurd e (by decide)
    rcases List.mem_cons.mp m with e | m
    · exact absurd e (by decide)
    rcases List.mem_cons.mp m with e | m
    · exact absurd e (by decide)
    rcases List.mem_cons.mp m with e | m
    · exact hexDigit_ne_brace _ (by omega) e.symm
    rcases List.mem_cons.mp m with e | m
    · exact hexDigit_ne_brace _ (by omega) e.symm
    exact absurd m (List.not_mem_nil _)
  · intro m
    rcases List.mem_cons.mp m with e | m
    · exact h e.symm
    exact absurd m (List.not_mem_nil _)

theorem prefix_gt_escape (cs : Chars) :
    (['>'] : Chars).isPrefixOf (cs.flatMap escChar) = true →
    (['>'] : Chars).isPrefixOf cs = true := by
  cases cs with
  | nil => simp [List.isPrefixOf]
  | cons c cs =>
      rcases escChar_self_or_backslash c with hself | ⟨t, ht⟩
      · intro hh
        rw [List.flatMap_cons, hself] at hh
        simpa [List.isPrefixOf] using hh
      · intro hh
        rw [List.flatMap_cons, ht] at hh
        simp [List.isPrefixOf] at hh

theorem prefix_dashgt_escape (cs : Chars) :
    (['-', '>'] : Chars).isPrefixOf (cs.flatMap escChar) = true →
    (['-', '>'] : Chars).isPrefixOf cs = true := by
  cases cs with
  | nil => simp [List.isPrefixOf]
  | cons c cs =>
      rcases escChar_self_or_backslash c with hself | ⟨t, ht⟩
      · intro hh
        rw [List.flatMap_cons, hself] at hh
        simp only [List.cons_append, List.nil_append, List.isPrefixOf,
          Bool.and_eq_true] at hh ⊢
        exact ⟨hh.1, prefix_gt_escape cs hh.2⟩
      · intro hh
        rw [List.flatMap_cons, ht] at hh
        simp [List.isPrefixOf] at hh

theorem prefix_arrow_escape (cs : Chars) :
    ("-->".data).isPrefixOf (cs.flatMap escChar) = true →
    ("-->".data).isPrefixOf cs = true := by
  cases cs with
  | nil => simp [List.isPrefixOf]
  | cons c cs =>
      rcases escChar_self_or_backslash c with hself | ⟨t, ht⟩
      · intro hh
        rw [List.flatMap_cons, hself] at hh
        show (['-', '-', '>'] : Chars).isPrefixOf (c :: cs) = true
        simp only [List.cons_append, List.nil_append, List.isPrefixOf,
          Bool.and_eq_true] at hh ⊢
        exact ⟨hh.1, prefix_dashgt_escape cs hh.2⟩
      · intro hh
        rw [List.flatMap_cons, ht] at hh
        simp [List.isPrefixOf] at hh

theorem arrowPrefix_skipWs_escape (cs : Chars) :
    ("-->".data).isPrefixOf (skipWs (cs.flatMap escChar)) = true →
    ("-->".data).isPrefixOf (skipWs cs) = true := by
  induction cs with
  | nil => simp [skipWs, List.isPrefixOf]
  | cons c cs ih =>
      by_cases hws : pyIsSpace c = true
      · have hcases : c = ' ' ∨ c = '\t' ∨ c = '\n' ∨ c = '\r' ∨
            c = Char.ofNat 11 ∨ c = Char.ofNat 12 := by
          have h2 := hws
          simp [pyIsSpace] at h2
          tauto
        rcases hcases with h | h | h | h | h | h <;> subst h <;>
          intro hh <;>
          first
          | · apply ih
              simpa [List.flatMap_cons, skipWs, List.dropWhile_cons,
                show escChar ' ' = [' '] from rfl] using hh
          | · rw [List.flatMap_cons] at hh
              simp [skipWs, List.dropWhile_cons, List.isPrefixOf,
                show escChar '\t' = ['\\', 't'] from rfl,
                show escChar '\n' = ['\\', 'n'] from rfl,
                show escChar '\r' = ['\\', 'r'] from rfl,
                show escChar (Char.ofNat 11) = ['\\', 'u', '0', '0', '0', 'b'] from rfl,
                show escChar (Char.ofNat 12) = ['\\', 'f'] from rfl] at hh
      · rcases escChar_self_or_backslash c with hself | ⟨t, ht⟩
        · have hws2 : pyIsSpace c = false := Bool.eq_false_iff.mpr hws
          intro hh
          rw [List.flatMap_cons, hself, List.singleton_append] at hh
          simp only [skipWs, List.dropWhile_cons, hws2, Bool.false_eq_true,
            if_false] at hh ⊢
          simp only [List.isPrefixOf, Bool.and_eq_true] at hh ⊢
          exact ⟨hh.1, prefix_dashgt_escape cs hh.2⟩
        · intro hh
          rw [List.flatMap_cons, ht] at hh
          simp [skipWs, List.dropWhile_cons, List.isPrefixOf] at hh

theorem hasBadClose_escape (cs : Chars) :
    hasBadClose (cs.flatMap escChar) = true → hasBadClose cs = true := by
  induction cs with
  | nil => simp [hasBadClose]
  | cons c cs ih =>
      by_cases hc : c = '}'
      · subst hc
        rw [List.flatMap_cons, show escChar '}' = ['}'] from rfl]
        intro hh
        rw [show (['}'] ++ cs.flatMap escChar : Chars) = '}' :: cs.flatMap escChar from rfl,
          hasBadClose] at hh
        show (('}' = '}' : Bool) && ("-->".data).isPrefixOf (skipWs cs) ||
          hasBadClose cs) = true
        simp only [Bool.or_eq_true, Bool.and_eq_true] at hh
        rcases hh with ⟨_, hp⟩ | h2
        · simp [arrowPrefix_skipWs_escape cs hp]
        · simp [ih h2]
      · intro hh
        rw [List.flatMap_cons,
          hasBadClose_append_no_brace _ _ (brace_not_mem_escChar c hc)] at hh
        simp [hasBadClose, hc, ih hh]

theorem findClose_eq (inner after : Chars) (hbad : hasBadClose inner = false)
    (hcl : ("-->".data).isPrefixOf (skipWs after) = true) :
    findClose (inner ++ '}' :: after) = some (inner, after) := by
  induction inner with
  | nil => simp [findClose, hcl]
  | cons c cs ih =>
      rw [show (c :: cs : Chars) = c :: cs from rfl, hasBadClose] at hbad
      rcases Bool.or_eq_false_iff.mp hbad with ⟨hb1, hb2⟩
      by_cases hc : c = '}'
      · subst hc
        have hps : ("-->".data).isPrefixOf (skipWs cs) = false := by
          simpa using hb1
        have hnp : ("-->".data).isPrefixOf (skipWs (cs ++ '}' :: after)) = false := by
          rw [skipWs_append cs '}' after (by decide),
            arrowPrefix_append (skipWs cs) '}' after (by decide) (by decide)]
          exact hps
        simp [findClose, hnp, ih hb2, mapConsPair]
      · simp [findClose, hc, ih hb2, mapConsPair]

theorem hexVal_hexDigit : ∀ n < 16, hexVal (hexDigit n) = some n := by decide

/-- The nine output shapes of `escChar`. -/
theorem escChar_cases (c : Char) :
    (c = '"' ∧ escChar c = ['\\', '"']) ∨
    (c = '\\' ∧ escChar c = ['\\', '\\']) ∨
    (c = '\n' ∧ escChar c = ['\\', 'n']) ∨
    (c = '\r' ∧ escChar c = ['\\', 'r']) ∨
    (c = '\t' ∧ escChar c = ['\\', 't']) ∨
    (c = Char.ofNat 8 ∧ escChar c = ['\\', 'b']) ∨
    (c = Char.ofNat 12 ∧ escChar c = ['\\', 'f']) ∨
    (c.toNat < 32 ∧
      escChar c = ['\\', 'u', '0', '0', hexDigit (c.toNat / 16), hexDigit (c.toNat % 16)]) ∨
    ((¬ c = '"') ∧ (¬ c = '\\') ∧ (¬ c.toNat < 32) ∧ escChar c = [c]) := by
  unfold escChar
  split_ifs with h1 h2 h3 h4 h5 h6 h7 h8
  · exact Or.inl ⟨h1, rfl⟩
  · exact Or.inr (Or.inl ⟨h2, rfl⟩)
  · exact Or.inr (Or.inr (Or.inl ⟨h3, rfl⟩))
  · exact Or.inr (Or.inr (Or.inr (Or.inl ⟨h4, rfl⟩)))
  · exact Or.inr (Or.inr (Or.inr (Or.inr (Or.inl ⟨h5, rfl⟩))))
  · exact Or.inr (Or.inr (Or.inr (Or.inr (Or.inr (Or.inl ⟨h6, rfl⟩)))))
  · exact Or.inr (Or.inr (Or.inr (Or.inr (Or.inr (Or.inr (Or.inl ⟨h7, rfl⟩))))))
  · exact Or.inr (Or.inr (Or.inr (Or.inr (Or.inr (Or.inr (Or.inr (Or.inl ⟨h8, rfl⟩)))))))
  · exact Or.inr (Or.inr (Or.inr (Or.inr (Or.inr (Or.inr (Or.inr (Or.inr
      ⟨h1, h2, h8, rfl⟩)))))))

/-- A `json.dumps`-escaped string parses back to itself. -/
theorem parseStringBody_dump (cs rest : Chars) :
    parseStringBody (cs.flatMap escChar ++ '"' :: rest) = some (cs, rest) := by
  induction cs with
  | nil => simp [parseStringBody.eq_def]
  | cons c cs ih =>
      rw [List.flatMap_cons]
      rcases escChar_cases c with ⟨he, hv⟩ | ⟨he, hv⟩ | ⟨he, hv⟩ | ⟨he, hv⟩ | ⟨he, hv⟩ |
        ⟨he, hv⟩ | ⟨he, hv⟩ | ⟨he, hv⟩ | ⟨h1, h2, h8, hv⟩
      · subst he
        rw [hv, List.append_assoc, List.cons_append, List.cons_append, List.nil_append,
          parseStringBody.eq_def]
        simp only [reduceIte]
        rw [ih]; rfl
      · subst he
        rw [hv, List.append_assoc, List.cons_append, List.cons_append, List.nil_append,
          parseStringBody.eq_def]
        simp only [reduceIte]
        rw [ih]; rfl
      · subst he
        rw [hv, List.append_assoc, List.cons_append, List.cons_append, List.nil_append,
          parseStringBody.eq_def]
        simp only [reduceIte]
        rw [ih]; rfl
      · subst he
        rw [hv, List.append_assoc, List.cons_append, List.cons_append, List.nil_append,
          parseStringBody.eq_def]
        simp only [reduceIte]
        rw [ih]; rfl
      · subst he
        rw [hv, List.append_assoc, List.cons_append, List.cons_append, List.nil_append,
          parseStringBody.eq_def]
        simp only [reduceIte]
        rw [ih]; rfl
      · subst he
        rw [hv, List.append_assoc, List.cons_append, List.cons_append, List.nil_append,
          parseStringBody.eq_def]
        simp only [reduceIte]
        rw [ih]; rfl
      · subst he
        rw [hv, List.append_assoc, List.cons_append, List.cons_append, List.nil_append,
          parseStringBody.eq_def]
        simp only [reduceIte]
        rw [ih]; rfl
      · have hhi : c.toNat / 16 < 16 := by omega
        have hlo : c.toNat % 16 < 16 := Nat.mod_lt _ (by omega)
        have hchar : Char.ofNat (4096 * 0 + 256 * 0 + 16 * (c.toNat / 16) + c.toNat % 16) = c := by
          have hee : 4096 * 0 + 256 * 0 + 16 * (c.toNat / 16) + c.toNat % 16 = c.toNat := by
            omega
          rw [hee, Char.ofNat_toNat]
        rw [hv, List.append_assoc]
        simp only [List.cons_append, List.nil_append]
        rw [parseStringBody.eq_def]
        simp only [reduceIte]
        rw [show hexVal '0' = some 0 from rfl, hexVal_hexDigit _ hhi, hexVal_hexDigit _ hlo]
        simp only []
        rw [hchar, ih]
        rfl
      · rw [hv, List.append_assoc]
        simp only [List.cons_append, List.nil_append]
        rw [parseStringBody.eq_def]
        simp only [if_neg h1, if_neg h2, if_neg h8]
        rw [ih]; rfl

theorem skipWs_cons (c : Char) (Y : Chars) (h : pyIsSpace c = false) :
    skipWs (c :: Y) = c :: Y := by
  simp [skipWs, List.dropWhile_cons, h]

theorem parseValue_quote (fuel : Nat) (X : Chars) :
    parseValue (fuel + 1) ('"' :: X) =
      match parseStringBody X with
      | some (s, rest2) => some (.str (String.mk s), rest2)
      | none => none := rfl

theorem parseValue_brace (fuel : Nat) (X : Chars) :
    parseValue (fuel + 1) ('{' :: X) =
      match skipWs X with
      | '}' :: rest2 => some (.obj [], rest2)
      | other => parseMembers fuel other [] := rfl

theorem parseMembers_quote (fuel : Nat) (X : Chars) (acc : List (String × Json)) :
    parseMembers (fuel + 1) ('"' :: X) acc =
      match parseStringBody X with
      | some (k, rest2) =>
          match skipWs rest2 with
          | ':' :: rest3 =>
              match parseValue fuel rest3 with
              | some (v, rest4) =>
                  match skipWs rest4 with
                  | ',' :: rest5 => parseMembers fuel (skipWs rest5) (acc ++ [(String.mk k, v)])
                  | '}' :: rest5 => some (.obj (acc ++ [(String.mk k, v)]), rest5)
                  | _ => none
              | none => none
          | _ => none
      | none => none := rfl

/-- A dumped string literal parses back as a JSON string value. -/
theorem parseValue_dumpString (s : String) (rest : Chars) (f : Nat) :
    parseValue (f + 1) ('"' :: (s.data.flatMap escChar ++ '"' :: rest)) =
      some (.str s, rest) := by
  rw [parseValue_quote, parseStringBody_dump]

/-- The serialization of a nonempty member list starts with a quote. -/
theorem dumpMembers_cons_quote (q : String × String) (qs : List (String × String)) :
    ∃ T, dumpMembersChars (q :: qs) = '"' :: T := by
  cases qs with
  | nil =>
      refine ⟨q.1.data.flatMap escChar ++ '"' :: (':' :: jsonDumpStringChars q.2), ?_⟩
      simp [dumpMembersChars, joinComma, jsonDumpStringChars]
  | cons r rs =>
      refine ⟨q.1.data.flatMap escChar ++ '"' :: (':' :: jsonDumpStringChars q.2) ++
        ',' :: dumpMembersChars (r :: rs), ?_⟩
      simp [dumpMembersChars, joinComma, jsonDumpStringChars]

/-- The serialized members of a nonempty flat object parse back, consuming
through the closing brace. -/
theorem parseMembers_dump (after : Chars) (pairs : List (String × String)) :
    ∀ (acc : List (String × Json)) (fuel : Nat),
      pairs ≠ [] → pairs.length + 1 ≤ fuel →
      parseMembers fuel (dumpMembersChars pairs ++ '}' :: after) acc =
        some (.obj (acc ++ pairs.map (fun p => (p.1, Json.str p.2))), after) := by
  induction pairs with
  | nil => intro acc fuel h _; exact absurd rfl h
  | cons p ps ih =>
      intro acc fuel _ hfuel
      obtain ⟨f, rfl⟩ : ∃ f, fuel = f + 1 := ⟨fuel - 1, by omega⟩
      have hf1 : 1 ≤ f := by simp at hfuel; omega
      obtain ⟨g, hg⟩ : ∃ g, f = g + 1 := ⟨f - 1, by omega⟩
      cases ps with
      | nil =>
          have harr : dumpMembersChars [p] ++ '}' :: after =
              '"' :: (p.1.data.flatMap escChar ++ '"' ::
                (':' :: ('"' :: (p.2.data.flatMap escChar ++ '"' :: '}' :: after)))) := by
            simp [dumpMembersChars, joinComma, jsonDumpStringChars]
          rw [harr, parseMembers_quote, parseStringBody_dump]
          simp only []
          rw [skipWs_cons ':' _ (by decide)]
          simp only []
          rw [hg, parseValue_dumpString]
          simp only []
          rw [skipWs_cons '}' _ (by decide)]
          simp

      | cons q qs =>
          have harr : dumpMembersChars (p :: q :: qs) ++ '}' :: after =
              '"' :: (p.1.data.flatMap escChar ++ '"' ::
                (':' :: ('"' :: (p.2.data.flatMap escChar ++ '"' ::
                  (',' :: (dumpMembersChars (q :: qs) ++ '}' :: after)))))) := by
            simp [dumpMembersChars, joinComma, jsonDumpStringChars]
          rw [harr, parseMembers_quote, parseStringBody_dump]
          simp only []
          rw [skipWs_cons ':' _ (by decide)]
          simp only []
          rw [hg, parseValue_dumpString]
          simp only []
          rw [skipWs_cons ',' _ (by decide)]
          simp only []
          obtain ⟨T, hT⟩ := dumpMembers_cons_quote q qs
          rw [hT, List.cons_append, skipWs_cons '"' _ (by decide), ← List.cons_append, ← hT]
          rw [ih _ (g + 1) (by simp) (by simp at hfuel ⊢; omega)]
          simp

theorem dumpMembers_length (pairs : List (String × String)) :
    pairs.length ≤ (dumpMembersChars pairs).length := by
  induction pairs with
  | nil => simp [dumpMembersChars, joinComma]
  | cons p ps ih =>
      cases ps with
      | nil =>
          simp [dumpMembersChars, joinComma, jsonDumpStringChars]
      | cons q qs =>
          have he : dumpMembersChars (p :: q :: qs) =
              (jsonDumpStringChars p.1 ++ ':' :: jsonDumpStringChars p.2) ++
                ',' :: dumpMembersChars (q :: qs) := by
            simp [dumpMembersChars, joinComma]
          rw [he]
          simp only [List.length_append, List.length_cons]
          simp at ih
          omega

/-- `json.loads` inverts `json.dumps` on a flat string-valued object. -/
theorem jsonLoadsChars_dumpFlat (pairs : List (String × String)) :
    jsonLoadsChars (jsonDumpFlat pairs) =
      some (.obj (pairs.map (fun p => (p.1, Json.str p.2)))) := by
  cases pairs with
  | nil => rfl
  | cons p ps =>
      unfold jsonLoadsChars
      have hflat : jsonDumpFlat (p :: ps) = '{' :: (dumpMembersChars (p :: ps) ++ ['}']) := rfl
      have hlen : (jsonDumpFlat (p :: ps)).length = (dumpMembersChars (p :: ps)).length + 2 := by
        rw [hflat]; simp
      rw [hflat, hlen] at *
      rw [parseValue_brace]
      set L := (dumpMembersChars (p :: ps)).length + 2 with hL
      obtain ⟨T, hT⟩ := dumpMembers_cons_quote p ps
      rw [hT, List.cons_append, skipWs_cons '"' _ (by decide)]
      show (match parseMembers L ('"' :: (T ++ ['}'])) [] with
        | some (v, rest) => if skipWs rest = [] then some v else none
        | none => none) = _
      rw [← List.cons_append, ← hT]
      rw [parseMembers_dump [] (p :: ps) [] L (by simp)
        (by rw [hL]; have := dumpMembers_length (p :: ps); simp at this ⊢; omega)]
      simp [skipWs]

/-- The metadata regex matches at the head of a body that starts with the
generated comment, and its group is exactly the dumped object — provided the
serialized members contain no early close (closing brace followed by optional
whitespace and an arrow). -/
theorem matchMetaAt_dump (pairs : List (String × String)) (tail : Chars)
    (hbad : hasBadClose (dumpMembersChars pairs) = false) :
    matchMetaAt ("<!-- operit-skill-json: ".data ++
        (jsonDumpFlat pairs ++ ' ' :: '-' :: '-' :: '>' :: tail)) =
      some (jsonDumpFlat pairs) := by
  have h1 : ("<!--".data).isPrefixOf ("<!-- operit-skill-json: ".data ++
      (jsonDumpFlat pairs ++ ' ' :: '-' :: '-' :: '>' :: tail)) = true := by
    rw [show "<!-- operit-skill-json: ".data
        = "<!--".data ++ " operit-skill-json: ".data from rfl,
      List.append_assoc]
    exact isPrefixOf_self_append _ _
  have hdrop : ("<!-- operit-skill-json: ".data ++
      (jsonDumpFlat pairs ++ ' ' :: '-' :: '-' :: '>' :: tail)).drop 4 =
      " operit-skill-json: ".data ++
        (jsonDumpFlat pairs ++ ' ' :: '-' :: '-' :: '>' :: tail) := rfl
  have hskip1 : skipWs (" operit-skill-json: ".data ++
      (jsonDumpFlat pairs ++ ' ' :: '-' :: '-' :: '>' :: tail)) =
      "operit-skill-json: ".data ++
        (jsonDumpFlat pairs ++ ' ' :: '-' :: '-' :: '>' :: tail) := rfl
  have h2 : ("operit-skill-json:".data).isPrefixOf ("operit-skill-json: ".data ++
      (jsonDumpFlat pairs ++ ' ' :: '-' :: '-' :: '>' :: tail)) = true := by
    rw [show "operit-skill-json: ".data
        = "operit-skill-json:".data ++ " ".data from rfl,
      List.append_assoc]
    exact isPrefixOf_self_append _ _
  have hdrop2 : ("operit-skill-json: ".data ++
      (jsonDumpFlat pairs ++ ' ' :: '-' :: '-' :: '>' :: tail)).drop 18 =
      " ".data ++ (jsonDumpFlat pairs ++ ' ' :: '-' :: '-' :: '>' :: tail) := rfl
  have hflat : jsonDumpFlat pairs = '{' :: (dumpMembersChars pairs ++ ['}']) := rfl
  have hskip2 : skipWs (" ".data ++
      (jsonDumpFlat pairs ++ ' ' :: '-' :: '-' :: '>' :: tail)) =
      '{' :: ((dumpMembersChars pairs ++ ['}']) ++ ' ' :: '-' :: '-' :: '>' :: tail) := by
    rw [show (" ".data ++ (jsonDumpFlat pairs ++ ' ' :: '-' :: '-' :: '>' :: tail) : Chars)
        = ' ' :: (jsonDumpFlat pairs ++ ' ' :: '-' :: '-' :: '>' :: tail) from rfl]
    rw [show skipWs (' ' :: (jsonDumpFlat pairs ++ ' ' :: '-' :: '-' :: '>' :: tail))
        = skipWs (jsonDumpFlat pairs ++ ' ' :: '-' :: '-' :: '>' :: tail) from rfl]
    rw [hflat, List.cons_append, skipWs_cons '{' _ (by decide)]
  have hcl : ("-->".data).isPrefixOf (skipWs (' ' :: '-' :: '-' :: '>' :: tail)) = true := by
    rw [show skipWs (' ' :: '-' :: '-' :: '>' :: tail)
        = List.dropWhile pyIsSpace (' ' :: '-' :: '-' :: '>' :: tail) from rfl,
      List.dropWhile_cons, if_pos (show pyIsSpace ' ' = true by decide)]
    rw [show List.dropWhile pyIsSpace ('-' :: '-' :: '>' :: tail)
        = skipWs ('-' :: '-' :: '>' :: tail) from rfl]
    rw [skipWs_cons '-' _ (by decide)]
    simp [List.isPrefixOf]
  have hclose : findClose ((dumpMembersChars pairs ++ ['}']) ++
      ' ' :: '-' :: '-' :: '>' :: tail) =
      some (dumpMembersChars pairs, ' ' :: '-' :: '-' :: '>' :: tail) := by
    rw [List.append_assoc, show (['}'] ++ ' ' :: '-' :: '-' :: '>' :: tail : Chars)
      = '}' :: (' ' :: '-' :: '-' :: '>' :: tail) from rfl]
    exact findClose_eq _ _ hbad hcl
  rw [matchMetaAt, if_pos h1, hdrop, hskip1, if_pos h2, hdrop2, hskip2]
  show (match findClose (dumpMembersChars pairs ++ ['}'] ++
      ' ' :: '-' :: '-' :: '>' :: tail) with
    | some (g, _) => some ('{' :: (g ++ ['}']))
    | none => none) = some (jsonDumpFlat pairs)
  rw [hclose, hflat]

theorem hasBadClose_escape_false (cs : Chars) (h : hasBadClose cs = false) :
    hasBadClose (cs.flatMap escChar) = false := by
  cases hh : hasBadClose (cs.flatMap escChar)
  · rfl
  · exact absurd (hasBadClose_escape cs hh) (by simp [h])

/-- No early close appears in serialized members of the form
`A"E"B` when `A` has no closing brace, the escaped value `E` has no early
close, and the concrete remainder `"B` has none. -/
theorem hasBadClose_wrap (A E B : Chars) (hA : '}' ∉ A)
    (hE : hasBadClose E = false) (hB : hasBadClose ('"' :: B) = false) :
    hasBadClose (A ++ '"' :: (E ++ '"' :: B)) = false := by
  rw [hasBadClose_append_no_brace A _ hA]
  have h0 : hasBadClose ('"' :: (E ++ '"' :: B)) = hasBadClose (E ++ '"' :: B) := by
    rw [hasBadClose]
    simp
  rw [h0, hasBadClose_append_blocked E B '"' (by decide) (by decide) (by decide), hE, hB]
  rfl

/-- Extraction from any body that starts with the generated metadata comment:
the regex group is the dumped object, parsing gives back the members, and the
`repositoryUrl`/`repoUrl` chain is applied. -/
theorem extract_of_shape (s : String) (pairs : List (String × String)) (tail : Chars)
    (hshape : s.data = "<!-- operit-skill-json: ".data ++
      (jsonDumpFlat pairs ++ ' ' :: '-' :: '-' :: '>' :: tail))
    (hbad : hasBadClose (dumpMembersChars pairs) = false) :
    extractSkillMetadataRepoUrl s =
      pyStrip (pyStrJson (metaRepoUrlValue (pairs.map (fun p => (p.1, Json.str p.2))))) := by
  unfold extractSkillMetadataRepoUrl
  rw [hshape]
  rw [if_neg (by
    rw [show "<!-- operit-skill-json: ".data
        = '<' :: "!-- operit-skill-json: ".data from rfl]
    simp)]
  rw [show ("<!-- operit-skill-json: ".data ++
      (jsonDumpFlat pairs ++ ' ' :: '-' :: '-' :: '>' :: tail) : Chars)
      = '<' :: ("!-- operit-skill-json: ".data ++
        (jsonDumpFlat pairs ++ ' ' :: '-' :: '-' :: '>' :: tail)) from rfl]
  rw [searchMeta]
  rw [show ('<' :: ("!-- operit-skill-json: ".data ++
      (jsonDumpFlat pairs ++ ' ' :: '-' :: '-' :: '>' :: tail)) : Chars)
      = "<!-- operit-skill-json: ".data ++
        (jsonDumpFlat pairs ++ ' ' :: '-' :: '-' :: '>' :: tail) from rfl]
  rw [matchMetaAt_dump pairs tail hbad]
  show (match jsonLoadsChars (jsonDumpFlat pairs) with
    | none => ""
    | some (.obj members) => pyStrip (pyStrJson (metaRepoUrlValue members))
    | some _ => "") = _
  rw [jsonLoadsChars_dumpFlat]

/-- The serialized issue metadata has no early close when the URL's text has
none (tabs and other control whitespace are escaped away by the dumper, so
only the URL's own brace-space-arrow patterns could break the group). -/
theorem hasBadClose_metadata (url : String) (hurl : hasBadClose url.data = false) :
    hasBadClose (dumpMembersChars
      [("repositoryUrl", url), ("category", ""), ("tags", ""), ("version", "v1")]) = false := by
  have hsplit : dumpMembersChars
      [("repositoryUrl", url), ("category", ""), ("tags", ""), ("version", "v1")] =
      (jsonDumpStringChars "repositoryUrl" ++ [':']) ++ '"' ::
        (url.data.flatMap escChar ++ '"' ::
          (',' :: dumpMembersChars [("category", ""), ("tags", ""), ("version", "v1")])) := by
    simp [dumpMembersChars, joinComma, jsonDumpStringChars]
  rw [hsplit]
  exact hasBadClose_wrap _ _ _ (by decide) (hasBadClose_escape_false _ hurl) (by decide)

/-- The built issue body starts with the metadata comment; everything after
`-->` is some tail. -/
theorem buildBody_shape (desc url now : String) :
    ∃ tail : Chars, (buildOperitIssueBody desc url "v1" now).data =
      "<!-- operit-skill-json: ".data ++
        (jsonDumpFlat [("repositoryUrl", url), ("category", ""), ("tags", ""),
          ("version", "v1")] ++ ' ' :: '-' :: '-' :: '>' :: tail) := by
  obtain ⟨rest, hrest⟩ : ∃ rest : String, buildOperitIssueBody desc url "v1" now =
      (("<!-- operit-skill-json: " ++
        String.mk (jsonDumpFlat [("repositoryUrl", url), ("category", ""), ("tags", ""),
          ("version", "v1")]) ++ " -->") ++ "\n") ++ rest := ⟨_, rfl⟩
  refine ⟨'\n' :: rest.data, ?_⟩
  rw [hrest]
  rw [String.data_append, String.data_append, String.data_append, String.data_append]
  rw [show (String.mk (jsonDumpFlat [("repositoryUrl", url), ("category", ""), ("tags", ""),
    ("version", "v1")])).data = jsonDumpFlat [("repositoryUrl", url), ("category", ""),
    ("tags", ""), ("version", "v1")] from rfl]
  rw [show " -->".data = [' ', '-', '-', '>'] from rfl,
    show "\n".data = ['\n'] from rfl]
  simp [List.append_assoc]

/-- C7 (amended): for every description and timestamp, and every repository
URL whose text does not contain a closing brace followed by optional
whitespace and `-->`, extracting the embedded metadata back out of the
produced body yields the whitespace-stripped URL (an exact round trip for
URLs without surrounding whitespace). -/
theorem buildBody_extract_roundtrip (desc url now : String)
    (hok : hasBadClose url.data = false) :
    extractSkillMetadataRepoUrl (buildOperitIssueBody desc url "v1" now) = pyStrip url := by
  obtain ⟨tail, hshape⟩ := buildBody_shape desc url now
  rw [extract_of_shape _ _ tail hshape (hasBadClose_metadata url hok)]
  by_cases hu : url = ""
  · subst hu; rfl
  · have hg1 : jGet "repositoryUrl" ([("repositoryUrl", url), ("category", ""), ("tags", ""),
        ("version", "v1")].map (fun p => (p.1, Json.str p.2))) = some (.str url) := rfl
    have ht : pyTruthy (Json.str url) = true := by simp [pyTruthy, hu]
    unfold metaRepoUrlValue
    rw [hg1]
    simp only []
    rw [if_pos ht]
    rfl

/-- C7: the round trip fails on the code as claimed for every URL.  The
extractor applies `str(v).strip()`, so a URL with surrounding whitespace
comes back stripped; and a URL containing a closing brace followed by
whitespace and `-->` makes the lazy regex group end early, json parsing fail,
and the extraction return the empty string. -/
theorem buildBody_extract_counterexample :
    extractSkillMetadataRepoUrl (buildOperitIssueBody "d" " x" "v1" "t") = "x" ∧
    "x" ≠ " x" ∧
    extractSkillMetadataRepoUrl (buildOperitIssueBody "d" "x\x7d -->y" "v1" "t") = "" ∧
    "" ≠ "x\x7d -->y" :=
  ⟨rfl, by decide, rfl, by decide⟩

/-- C7 witness: the amended round trip at a concrete URL. -/
theorem buildBody_extract_roundtrip_witness :
    hasBadClose "https://github.com/anthropics/skills/tree/main/pdf".data = false ∧
    extractSkillMetadataRepoUrl (buildOperitIssueBody "desc"
        "https://github.com/anthropics/skills/tree/main/pdf" "v1" "t") =
      pyStrip "https://github.com/anthropics/skills/tree/main/pdf" :=
  ⟨by decide, buildBody_extract_roundtrip "desc" _ "t" (by decide)⟩

theorem metaValue_repoUrl_only (v : String) :
    pyStrip (pyStrJson (metaRepoUrlValue [("repoUrl", Json.str v)])) = pyStrip v := by
  by_cases hv : v = ""
  · subst hv; rfl
  · unfold metaRepoUrlValue
    rw [show jGet "repositoryUrl" [("repoUrl", Json.str v)] = none from rfl]
    simp only []
    rw [if_neg (by simp [pyTruthy])]
    rw [show jGet "repoUrl" [("repoUrl", Json.str v)] = some (Json.str v) from rfl]
    simp only []
    rw [if_pos (by simp [pyTruthy, hv])]
    rfl

theorem metaValue_empty_then_repoUrl (v : String) :
    pyStrip (pyStrJson (metaRepoUrlValue
      [("repositoryUrl", Json.str ""), ("repoUrl", Json.str v)])) = pyStrip v := by
  by_cases hv : v = ""
  · subst hv; rfl
  · unfold metaRepoUrlValue
    rw [show jGet "repositoryUrl" [("repositoryUrl", Json.str ""), ("repoUrl", Json.str v)]
      = some (Json.str "") from rfl]
    simp only []
    rw [if_neg (by simp [pyTruthy])]
    rw [show jGet "repoUrl" [("repositoryUrl", Json.str ""), ("repoUrl", Json.str v)]
      = some (Json.str v) from rfl]
    simp only []
    rw [if_pos (by simp [pyTruthy, hv])]
    rfl

/-- C9: when the embedded metadata object lacks `repositoryUrl` or maps it to
an empty value, the extractor falls back to the legacy `repoUrl` key; when
neither key yields a value, or the comment's JSON is malformed, or the body
is empty, it returns the empty string rather than failing. -/
theorem extract_repoUrl_fallback :
    (∀ v : String, hasBadClose v.data = false →
      extractSkillMetadataRepoUrl (String.mk ("<!-- operit-skill-json: ".data ++
        (jsonDumpFlat [("repoUrl", v)] ++ ' ' :: '-' :: '-' :: '>' :: []))) = pyStrip v) ∧
    (∀ v : String, hasBadClose v.data = false →
      extractSkillMetadataRepoUrl (String.mk ("<!-- operit-skill-json: ".data ++
        (jsonDumpFlat [("repositoryUrl", ""), ("repoUrl", v)] ++
          ' ' :: '-' :: '-' :: '>' :: []))) = pyStrip v) ∧
    extractSkillMetadataRepoUrl (String.mk ("<!-- operit-skill-json: ".data ++
      (jsonDumpFlat [("repositoryUrl", ""), ("repoUrl", "")] ++
        ' ' :: '-' :: '-' :: '>' :: []))) = "" ∧
    extractSkillMetadataRepoUrl "<!-- operit-skill-json: \x7boops\x7d -->" = "" ∧
    extractSkillMetadataRepoUrl "" = "" := by
  refine ⟨?_, ?_, rfl, rfl, rfl⟩
  · intro v hv
    have hbad : hasBadClose (dumpMembersChars [("repoUrl", v)]) = false := by
      have hsplit : dumpMembersChars [("repoUrl", v)] =
          (jsonDumpStringChars "repoUrl" ++ [':']) ++ '"' ::
            (v.data.flatMap escChar ++ '"' :: []) := by
        simp [dumpMembersChars, joinComma, jsonDumpStringChars]
      rw [hsplit]
      exact hasBadClose_wrap _ _ _ (by decide) (hasBadClose_escape_false _ hv) (by decide)
    rw [extract_of_shape _ [("repoUrl", v)] [] rfl hbad]
    exact metaValue_repoUrl_only v
  · intro v hv
    have hbad : hasBadClose (dumpMembersChars [("repositoryUrl", ""), ("repoUrl", v)]) = false := by
      have hsplit : dumpMembersChars [("repositoryUrl", ""), ("repoUrl", v)] =
          ((jsonDumpStringChars "repositoryUrl" ++ ':' :: jsonDumpStringChars "") ++
            ',' :: (jsonDumpStringChars "repoUrl" ++ [':'])) ++ '"' ::
            (v.data.flatMap escChar ++ '"' :: []) := by
        simp [dumpMembersChars, joinComma, jsonDumpStringChars]
      rw [hsplit]
      exact hasBadClose_wrap _ _ _ (by decide) (hasBadClose_escape_false _ hv) (by decide)
    rw [extract_of_shape _ [("repositoryUrl", ""), ("repoUrl", v)] [] rfl hbad]
    exact metaValue_empty_then_repoUrl v

/-- C9 witness: the fallback theorem at concrete bodies. -/
theorem extract_repoUrl_fallback_witness :
    hasBadClose "https://example.com/r".data = false ∧
    extractSkillMetadataRepoUrl (String.mk ("<!-- operit-skill-json: ".data ++
      (jsonDumpFlat [("repoUrl", "https://example.com/r")] ++
        ' ' :: '-' :: '-' :: '>' :: []))) = pyStrip "https://example.com/r" ∧
    extractSkillMetadataRepoUrl (String.mk ("<!-- operit-skill-json: ".data ++
      (jsonDumpFlat [("repositoryUrl", ""), ("repoUrl", "https://example.com/r")] ++
        ' ' :: '-' :: '-' :: '>' :: []))) = pyStrip "https://example.com/r" :=
  ⟨by decide, extract_repoUrl_fallback.1 "https://example.com/r" (by decide),
    extract_repoUrl_fallback.2.1 "https://example.com/r" (by decide)⟩

/-!
## The driver (`main`, import_anthropic_skills.py lines 539-836)

Modelled from the point after argument parsing and `.env` loading: `Args`
holds the parsed flags, `EnvVars` the consulted environment values, and
`World` the outcome of every external call — the target repository's issue
listing (`_iter_issues` with state `all` and no labels, when
`--skip-existing` is set), the discovery result (either strategy), and each
processed item's `_pick_skill_markdown`, `_ai_generate_description` and
`_create_issue` outcomes, indexed by the item's position in the processed
list (`Except.error` is an exception raised by the call).  Pure string
constructions passed only to those calls (`_safe_title`, the issue body) do
not influence control flow and are absorbed into the oracles.  `mainModel`
returns `Except.ok code` for `return code`, `Except.error msg` for an
exception that propagates out of `main` and aborts the run, and the ordered
list of observable events.
-/

structure SourceSkill where
  name : String
  path : String
  htmlUrl : String
  deriving DecidableEq

structure Args where
  sourceRepo : String
  sourceRef : String
  sourceRoot : String
  recursive : Bool
  allowDuplicateIds : Bool
  targetRepo : String
  labels : String
  limit : Int
  onlySkill : String
  skipExisting : Bool
  dryRun : Bool
  printDescription : Bool
  printBody : Bool
  verbose : Bool
  version : String

structure EnvVars where
  githubToken : String
  aiBaseUrl : String
  aiApiKey : String

structure World where
  issues : List Json
  skills : List SourceSkill
  pick : Nat → Except String (String × String)
  describe : Nat → Except String String
  create : Nat → List String → Except String Json

inductive Ev where
  | fetchIssues (state labels : String)
  | discover
  | dupAbort (dups : List String)
  | skip (idx : Nat) (name : String)
  | pick (idx : Nat)
  | aiCall (idx : Nat)
  | createCall (idx : Nat) (labels : List String)
  | created (idx : Nat)
  | failed (idx : Nat)
  | done (created skipped failed : Nat)
  deriving DecidableEq

/-- `labels = [x.strip() for x in str(args.labels).split(",") if x.strip()]`. -/
def parseLabels (s : String) : List String :=
  (((splitComma s.data).map pyStripChars).filter (fun l => l ≠ [])).map String.mk

/-- Collecting `repositoryUrl` metadata from existing issues (lines 686-690):
`body = str(it.get("body") or "")`, extract, keep nonempty. -/
def collectExistingUrls (issues : List Json) : List String :=
  issues.filterMap (fun it =>
    let bodyVal :=
      match it with
      | .obj members => match jGet "body" members with | some v => v | none => .null
      | _ => .null
    let body := if pyTruthy bodyVal then pyStrJson bodyVal else ""
    let url := extractSkillMetadataRepoUrl body
    if url ≠ "" then some url else none)

/-- `skill.path.lstrip('/')`. -/
def lstripSlash (s : String) : String := String.mk (s.data.dropWhile (fun c => c = '/'))

/-- `f"https://github.com/.../tree/.../..."` (line 752). -/
def skillRepoUrl (args : Args) (s : SourceSkill) : String :=
  "https://github.com/" ++ args.sourceRepo ++ "/tree/" ++ args.sourceRef ++ "/" ++
    lstripSlash s.path

/-- The duplicate-ID report (lines 719-722): the names occurring more than
once, sorted. -/
def dupNames (names : List String) : List String :=
  sortStable (fun s => s) (names.dedup.filter (fun n => 1 < names.count n))

/-- The per-item loop (lines 749-833).  `_pick_skill_markdown` is called
before the `try` block, so an exception there propagates (`Except.error`);
exceptions from summarization, the empty-description check, and issue
creation (with its one 422 relabel retry) are caught by the
`except Exception` handler, which counts the failure and continues. -/
def runLoop (args : Args) (w : World) (existing : List String) :
    Nat → List SourceSkill → Nat → Nat → Nat → Except String Nat × List Ev
  | _, [], created, skipped, failed =>
      (Except.ok (if failed = 0 then 0 else 1), [Ev.done created skipped failed])
  | i, skill :: rest, created, skipped, failed =>
      if args.skipExisting = true ∧ skillRepoUrl args skill ∈ existing then
        let r := runLoop args w existing (i + 1) rest created (skipped + 1) failed
        (r.1, Ev.skip i skill.name :: r.2)
      else
        match w.pick i with
        | .error e => (Except.error e, [Ev.pick i])
        | .ok _ =>
            match w.describe i with
            | .error _ =>
                let r := runLoop args w existing (i + 1) rest created skipped (failed + 1)
                (r.1, Ev.pick i :: Ev.aiCall i :: Ev.failed i :: r.2)
            | .ok desc =>
                if desc = "" then
                  let r := runLoop args w existing (i + 1) rest created skipped (failed + 1)
                  (r.1, Ev.pick i :: Ev.aiCall i :: Ev.failed i :: r.2)
                else if args.dryRun = true then
                  let r := runLoop args w existing (i + 1) rest (created + 1) skipped failed
                  (r.1, Ev.pick i :: Ev.aiCall i :: Ev.created i :: r.2)
                else
                  match w.create i (parseLabels args.labels) with
                  | .ok _ =>
                      let r := runLoop args w existing (i + 1) rest (created + 1) skipped failed
                      (r.1, Ev.pick i :: Ev.aiCall i ::
                        Ev.createCall i (parseLabels args.labels) :: Ev.created i :: r.2)
                  | .error msg =>
                      if isSubList "422".data msg.data = true then
                        match w.create i [] with
                        | .ok _ =>
                            let r := runLoop args w existing (i + 1) rest (created + 1)
                              skipped failed
                            (r.1, Ev.pick i :: Ev.aiCall i ::
                              Ev.createCall i (parseLabels args.labels) ::
                              Ev.createCall i [] :: Ev.created i :: r.2)
                        | .error _ =>
                            let r := runLoop args w existing (i + 1) rest created skipped
                              (failed + 1)
                            (r.1, Ev.pick i :: Ev.aiCall i ::
                              Ev.createCall i (parseLabels args.labels) ::
                              Ev.createCall i [] :: Ev.failed i :: r.2)
                      else
                        let r := runLoop args w existing (i + 1) rest created skipped
                          (failed + 1)
                        (r.1, Ev.pick i :: Ev.aiCall i ::
                          Ev.createCall i (parseLabels args.labels) :: Ev.failed i :: r.2)

/-- `main` after argument parsing and `.env` loading. -/
def mainModel (args : Args) (env : EnvVars) (w : World) : Except String Nat × List Ev :=
  let githubToken := pyStrip env.githubToken
  let aiBaseUrl := pyStrip env.aiBaseUrl
  let aiApiKey := pyStrip env.aiApiKey
  if aiBaseUrl = "" ∨ aiApiKey = "" then (Except.ok 2, [])
  else if githubToken = "" ∧ args.dryRun = false then (Except.ok 2, [])
  else if args.targetRepo = "" ∨ isSubList "/".data args.targetRepo.data = false then
    (Except.ok 2, [])
  else
    let existing := if args.skipExisting then collectExistingUrls w.issues else []
    let evs0 := if args.skipExisting then [Ev.fetchIssues "all" ""] else []
    let skills := w.skills
    let evs1 := evs0 ++ [Ev.discover]
    if args.allowDuplicateIds = false ∧ dupNames (skills.map (fun s => s.name)) ≠ [] then
      (Except.ok 2, evs1 ++ [Ev.dupAbort (dupNames (skills.map (fun s => s.name)))])
    else
      let only := pyStrip args.onlySkill
      let skills2 := if only ≠ "" then skills.filter (fun s => s.name = only) else skills
      if only ≠ "" ∧ skills2 = [] then (Except.ok 2, evs1)
      else
        let skills3 :=
          if args.limit ≠ 0 ∧ 0 < args.limit then skills2.take args.limit.toNat else skills2
        let lr := runLoop args w existing 0 skills3 0 0 0
        (lr.1, evs1 ++ lr.2)

/-- The item index an event refers to, if any. -/
def evIdx : Ev → Option Nat
  | .skip i _ => some i
  | .pick i => some i
  | .aiCall i => some i
  | .createCall i _ => some i
  | .created i => some i
  | .failed i => some i
  | _ => none

theorem runLoop_no_dupAbort (args : Args) (w : World) (existing : List String)
    (skills : List SourceSkill) :
    ∀ (i c s f : Nat) (l : List String),
      Ev.dupAbort l ∉ (runLoop args w existing i skills c s f).2 := by
  induction skills with
  | nil => intro i c s f l; simp [runLoop]
  | cons sk rest ih =>
      intro i c s f l
      rw [runLoop]
      repeat' split
      all_goals simp [ih]

theorem runLoop_cons_mem (args : Args) (w : World) (existing : List String)
    (i : Nat) (sk : SourceSkill) (rest : List SourceSkill) (c s f : Nat) :
    ∀ x ∈ (runLoop args w existing i (sk :: rest) c s f).2,
      (∀ k, evIdx x = some k → k = i) ∨
      ∃ c2 s2 f2, x ∈ (runLoop args w existing (i + 1) rest c2 s2 f2).2 := by
  rw [runLoop]
  repeat' split
  all_goals intro x hx
  all_goals simp only [List.mem_cons] at hx
  all_goals repeat' rcases hx with rfl | hx
  all_goals
    first
    | exact Or.inl (fun k hk => by simp [evIdx] at hk; omega)
    | exact Or.inr ⟨_, _, _, hx⟩

theorem runLoop_idx_ge (args : Args) (w : World) (existing : List String)
    (skills : List SourceSkill) :
    ∀ (i c s f : Nat), ∀ e ∈ (runLoop args w existing i skills c s f).2,
      ∀ k, evIdx e = some k → i ≤ k := by
  induction skills with
  | nil =>
      intro i c s f e he k hk
      simp [runLoop] at he
      subst he
      simp [evIdx] at hk
  | cons sk rest ih =>
      intro i c s f e he k hk
      rcases runLoop_cons_mem args w existing i sk rest c s f e he with h | ⟨c2, s2, f2, h⟩
      · have := h k hk; omega
      · have := ih (i + 1) c2 s2 f2 e h k hk; omega

/-! Step equations for `runLoop`, one per control-flow branch of the item loop. -/

theorem runLoop_cons_skip {args : Args} {w : World} {existing : List String}
    {i : Nat} {sk : SourceSkill} {rest : List SourceSkill} {c s f : Nat}
    (hsk : args.skipExisting = true ∧ skillRepoUrl args sk ∈ existing) :
    runLoop args w existing i (sk :: rest) c s f =
      ((runLoop args w existing (i + 1) rest c (s + 1) f).1,
        Ev.skip i sk.name :: (runLoop args w existing (i + 1) rest c (s + 1) f).2) := by
  rw [runLoop, if_pos hsk]

theorem runLoop_cons_pickErr {args : Args} {w : World} {existing : List String}
    {i : Nat} {sk : SourceSkill} {rest : List SourceSkill} {c s f : Nat} {e : String}
    (hsk : ¬(args.skipExisting = true ∧ skillRepoUrl args sk ∈ existing))
    (hp : w.pick i = Except.error e) :
    runLoop args w existing i (sk :: rest) c s f = (Except.error e, [Ev.pick i]) := by
  rw [runLoop, if_neg hsk, hp]

theorem runLoop_cons_descErr {args : Args} {w : World} {existing : List String}
    {i : Nat} {sk : SourceSkill} {rest : List SourceSkill} {c s f : Nat}
    {v : String × String} {e2 : String}
    (hsk : ¬(args.skipExisting = true ∧ skillRepoUrl args sk ∈ existing))
    (hp : w.pick i = Except.ok v) (hd : w.describe i = Except.error e2) :
    runLoop args w existing i (sk :: rest) c s f =
      ((runLoop args w existing (i + 1) rest c s (f + 1)).1,
        Ev.pick i :: Ev.aiCall i :: Ev.failed i ::
          (runLoop args w existing (i + 1) rest c s (f + 1)).2) := by
  rw [runLoop, if_neg hsk, hp, hd]

theorem runLoop_cons_descEmpty {args : Args} {w : World} {existing : List String}
    {i : Nat} {sk : SourceSkill} {rest : List SourceSkill} {c s f : Nat}
    {v : String × String}
    (hsk : ¬(args.skipExisting = true ∧ skillRepoUrl args sk ∈ existing))
    (hp : w.pick i = Except.ok v) (hd : w.describe i = Except.ok "") :
    runLoop args w existing i (sk :: rest) c s f =
      ((runLoop args w existing (i + 1) rest c s (f + 1)).1,
        Ev.pick i :: Ev.aiCall i :: Ev.failed i ::
          (runLoop args w existing (i + 1) rest c s (f + 1)).2) := by
  rw [runLoop, if_neg hsk, hp, hd]
  simp

theorem runLoop_cons_dry {args : Args} {w : World} {existing : List String}
    {i : Nat} {sk : SourceSkill} {rest : List SourceSkill} {c s f : Nat}
    {v : String × String} {desc : String}
    (hsk : ¬(args.skipExisting = true ∧ skillRepoUrl args sk ∈ existing))
    (hp : w.pick i = Except.ok v) (hd : w.describe i = Except.ok desc)
    (hde : desc ≠ "") (hdry : args.dryRun = true) :
    runLoop args w existing i (sk :: rest) c s f =
      ((runLoop args w existing (i + 1) rest (c + 1) s f).1,
        Ev.pick i :: Ev.aiCall i :: Ev.created i ::
          (runLoop args w existing (i + 1) rest (c + 1) s f).2) := by
  rw [runLoop, if_neg hsk]
  simp only [hp, hd, hde, hdry, if_true, if_false, Bool.false_eq_true]

theorem runLoop_cons_createOk {args : Args} {w : World} {existing : List String}
    {i : Nat} {sk : SourceSkill} {rest : List SourceSkill} {c s f : Nat}
    {v : String × String} {desc : String} {j : Json}
    (hsk : ¬(args.skipExisting = true ∧ skillRepoUrl args sk ∈ existing))
    (hp : w.pick i = Except.ok v) (hd : w.describe i = Except.ok desc)
    (hde : desc ≠ "") (hdry : ¬args.dryRun = true)
    (hc : w.create i (parseLabels args.labels) = Except.ok j) :
    runLoop args w existing i (sk :: rest) c s f =
      ((runLoop args w existing (i + 1) rest (c + 1) s f).1,
        Ev.pick i :: Ev.aiCall i :: Ev.createCall i (parseLabels args.labels) ::
          Ev.created i :: (runLoop args w existing (i + 1) rest (c + 1) s f).2) := by
  rw [runLoop, if_neg hsk]
  simp only [hp, hd, hde, hdry, hc, if_true, if_false, Bool.false_eq_true]

theorem runLoop_cons_retryOk {args : Args} {w : World} {existing : List String}
    {i : Nat} {sk : SourceSkill} {rest : List SourceSkill} {c s f : Nat}
    {v : String × String} {desc : String} {msg : String} {j : Json}
    (hsk : ¬(args.skipExisting = true ∧ skillRepoUrl args sk ∈ existing))
    (hp : w.pick i = Except.ok v) (hd : w.describe i = Except.ok desc)
    (hde : desc ≠ "") (hdry : ¬args.dryRun = true)
    (hc : w.create i (parseLabels args.labels) = Except.error msg)
    (h422 : isSubList "422".data msg.data = true)
    (hc2 : w.create i [] = Except.ok j) :
    runLoop args w existing i (sk :: rest) c s f =
      ((runLoop args w existing (i + 1) rest (c + 1) s f).1,
        Ev.pick i :: Ev.aiCall i :: Ev.createCall i (parseLabels args.labels) ::
          Ev.createCall i [] :: Ev.created i ::
          (runLoop args w existing (i + 1) rest (c + 1) s f).2) := by
  rw [runLoop, if_neg hsk]
  simp only [hp, hd, hde, hdry, hc, h422, hc2, if_true, if_false, Bool.false_eq_true]

theorem runLoop_cons_retryErr {args : Args} {w : World} {existing : List String}
    {i : Nat} {sk : SourceSkill} {rest : List SourceSkill} {c s f : Nat}
    {v : String × String} {desc : String} {msg : String} {e3 : String}
    (hsk : ¬(args.skipExisting = true ∧ skillRepoUrl args sk ∈ existing))
    (hp : w.pick i = Except.ok v) (hd : w.describe i = Except.ok desc)
    (hde : desc ≠ "") (hdry : ¬args.dryRun = true)
    (hc : w.create i (parseLabels args.labels) = Except.error msg)
    (h422 : isSubList "422".data msg.data = true)
    (hc2 : w.create i [] = Except.error e3) :
    runLoop args w existing i (sk :: rest) c s f =
      ((runLoop args w existing (i + 1) rest c s (f + 1)).1,
        Ev.pick i :: Ev.aiCall i :: Ev.createCall i (parseLabels args.labels) ::
          Ev.createCall i [] :: Ev.failed i ::
          (runLoop args w existing (i + 1) rest c s (f + 1)).2) := by
  rw [runLoop, if_neg hsk]
  simp only [hp, hd, hde, hdry, hc, h422, hc2, if_true, if_false, Bool.false_eq_true]

theorem runLoop_cons_createErr {args : Args} {w : World} {existing : List String}
    {i : Nat} {sk : SourceSkill} {rest : List SourceSkill} {c s f : Nat}
    {v : String × String} {desc : String} {msg : String}
    (hsk : ¬(args.skipExisting = true ∧ skillRepoUrl args sk ∈ existing))
    (hp : w.pick i = Except.ok v) (hd : w.describe i = Except.ok desc)
    (hde : desc ≠ "") (hdry : ¬args.dryRun = true)
    (hc : w.create i (parseLabels args.labels) = Except.error msg)
    (h422 : ¬isSubList "422".data msg.data = true) :
    runLoop args w existing i (sk :: rest) c s f =
      ((runLoop args w existing (i + 1) rest c s (f + 1)).1,
        Ev.pick i :: Ev.aiCall i :: Ev.createCall i (parseLabels args.labels) ::
          Ev.failed i :: (runLoop args w existing (i + 1) rest c s (f + 1)).2) := by
  rw [runLoop, if_neg hsk]
  simp only [hp, hd, hde, hdry, hc, h422, if_true, if_false, Bool.false_eq_true]

/-- Does the per-item skip-existing test of the loop match this skill? -/
def matchSkip (args : Args) (existing : List String) (sk : SourceSkill) : Bool :=
  decide (args.skipExisting = true ∧ skillRepoUrl args sk ∈ existing)

theorem runLoop_cons_split (args : Args) (w : World) (existing : List String)
    (i : Nat) (sk : SourceSkill) (rest : List SourceSkill) (c s f : Nat)
    (hpk : ∃ v, w.pick i = Except.ok v) :
    ∃ (P : List Ev) (c2 s2 f2 : Nat),
      (runLoop args w existing i (sk :: rest) c s f).2 =
        P ++ (runLoop args w existing (i + 1) rest c2 s2 f2).2 ∧
      (runLoop args w existing i (sk :: rest) c s f).1 =
        (runLoop args w existing (i + 1) rest c2 s2 f2).1 ∧
      (∀ x ∈ P, ∀ k, evIdx x = some k → k = i) ∧
      (args.skipExisting = true ∧ skillRepoUrl args sk ∈ existing →
        P = [Ev.skip i sk.name] ∧ s2 = s + 1) ∧
      (¬(args.skipExisting = true ∧ skillRepoUrl args sk ∈ existing) →
        (Ev.pick i ∈ P ∧ Ev.aiCall i ∈ P) ∧ s2 = s) ∧
      (f2 = f ∧ (∀ j, Ev.failed j ∉ P) ∨ f2 = f + 1 ∧ Ev.failed i ∈ P) := by
  by_cases hsk : args.skipExisting = true ∧ skillRepoUrl args sk ∈ existing
  · refine ⟨[Ev.skip i sk.name], c, s + 1, f, ?_, ?_, ?_, ?_, ?_, ?_⟩
    · rw [runLoop_cons_skip hsk]
      rfl
    · rw [runLoop_cons_skip hsk]
    · intro x hx k hk; fin_cases hx <;> (simp [evIdx] at hk; omega)
    · intro _; exact ⟨rfl, rfl⟩
    · intro h; exact absurd hsk h
    · exact Or.inl ⟨rfl, by simp⟩
  · obtain ⟨v, hv⟩ := hpk
    rcases hd : w.describe i with e2 | desc
    · refine ⟨[Ev.pick i, Ev.aiCall i, Ev.failed i], c, s, f + 1, ?_, ?_, ?_, ?_, ?_, ?_⟩
      · rw [runLoop_cons_descErr hsk hv hd]
        rfl
      · rw [runLoop_cons_descErr hsk hv hd]
      · intro x hx k hk; fin_cases hx <;> (simp [evIdx] at hk; omega)
      · intro h; exact absurd h hsk
      · intro _; exact ⟨⟨by simp, by simp⟩, rfl⟩
      · exact Or.inr ⟨rfl, by simp⟩
    · by_cases hde : desc = ""
      · subst hde
        refine ⟨[Ev.pick i, Ev.aiCall i, Ev.failed i], c, s, f + 1, ?_, ?_, ?_, ?_, ?_, ?_⟩
        · rw [runLoop_cons_descEmpty hsk hv hd]
          rfl
        · rw [runLoop_cons_descEmpty hsk hv hd]
        · intro x hx k hk; fin_cases hx <;> (simp [evIdx] at hk; omega)
        · intro h; exact absurd h hsk
        · intro _; exact ⟨⟨by simp, by simp⟩, rfl⟩
        · exact Or.inr ⟨rfl, by simp⟩
      · by_cases hdry : args.dryRun = true
        · refine ⟨[Ev.pick i, Ev.aiCall i, Ev.created i], c + 1, s, f, ?_, ?_, ?_, ?_, ?_, ?_⟩
          · rw [runLoop_cons_dry hsk hv hd hde hdry]
            rfl
          · rw [runLoop_cons_dry hsk hv hd hde hdry]
          · intro x hx k hk; fin_cases hx <;> (simp [evIdx] at hk; omega)
          · intro h; exact absurd h hsk
          · intro _; exact ⟨⟨by simp, by simp⟩, rfl⟩
          · exact Or.inl ⟨rfl, by simp⟩
        · rcases hc : w.create i (parseLabels args.labels) with msg | j
          · by_cases h422 : isSubList "422".data msg.data = true
            · rcases hc2 : w.create i [] with e3 | j2
              · refine ⟨[Ev.pick i, Ev.aiCall i, Ev.createCall i (parseLabels args.labels),
                  Ev.createCall i [], Ev.failed i], c, s, f + 1, ?_, ?_, ?_, ?_, ?_, ?_⟩
                · rw [runLoop_cons_retryErr hsk hv hd hde hdry hc h422 hc2]
                  rfl
                · rw [runLoop_cons_retryErr hsk hv hd hde hdry hc h422 hc2]
                · intro x hx k hk; fin_cases hx <;> (simp [evIdx] at hk; omega)
                · intro h; exact absurd h hsk
                · intro _; exact ⟨⟨by simp, by simp⟩, rfl⟩
                · exact Or.inr ⟨rfl, by simp⟩
              · refine ⟨[Ev.pick i, Ev.aiCall i, Ev.createCall i (parseLabels args.labels),
                  Ev.createCall i [], Ev.created i], c + 1, s, f, ?_, ?_, ?_, ?_, ?_, ?_⟩
                · rw [runLoop_cons_retryOk hsk hv hd hde hdry hc h422 hc2]
                  rfl
                · rw [runLoop_cons_retryOk hsk hv hd hde hdry hc h422 hc2]
                · intro x hx k hk; fin_cases hx <;> (simp [evIdx] at hk; omega)
                · intro h; exact absurd h hsk
                · intro _; exact ⟨⟨by simp, by simp⟩, rfl⟩
                · exact Or.inl ⟨rfl, by simp⟩
            · refine ⟨[Ev.pick i, Ev.aiCall i, Ev.createCall i (parseLabels args.labels),
                Ev.failed i], c, s, f + 1, ?_, ?_, ?_, ?_, ?_, ?_⟩
              · rw [runLoop_cons_createErr hsk hv hd hde hdry hc h422]
                rfl
              · rw [runLoop_cons_createErr hsk hv hd hde hdry hc h422]
              · intro x hx k hk; fin_cases hx <;> (simp [evIdx] at hk; omega)
              · intro h; exact absurd h hsk
              · intro _; exact ⟨⟨by simp, by simp⟩, rfl⟩
              · exact Or.inr ⟨rfl, by simp⟩
          · refine ⟨[Ev.pick i, Ev.aiCall i, Ev.createCall i (parseLabels args.labels),
              Ev.created i], c + 1, s, f, ?_, ?_, ?_, ?_, ?_, ?_⟩
            · rw [runLoop_cons_createOk hsk hv hd hde hdry hc]
              rfl
            · rw [runLoop_cons_createOk hsk hv hd hde hdry hc]
            · intro x hx k hk; fin_cases hx <;> (simp [evIdx] at hk; omega)
            · intro h; exact absurd h hsk
            · intro _; exact ⟨⟨by simp, by simp⟩, rfl⟩
            · exact Or.inl ⟨rfl, by simp⟩

theorem runLoop_result (args : Args) (w : World) (existing : List String)
    (hpk : ∀ j, ∃ v, w.pick j = Except.ok v) (skills : List SourceSkill) :
    ∀ (i c s f : Nat), ∃ f2 : Nat, f ≤ f2 ∧
      (runLoop args w existing i skills c s f).1 = Except.ok (if f2 = 0 then 0 else 1) ∧
      (f2 = f ↔ ∀ j, Ev.failed j ∉ (runLoop args w existing i skills c s f).2) := by
  induction skills with
  | nil =>
      intro i c s f
      refine ⟨f, le_refl f, by simp [runLoop], ?_⟩
      simp [runLoop]
  | cons sk rest ihh =>
      intro i c s f
      rcases runLoop_cons_split args w existing i sk rest c s f (hpk i) with
        ⟨P, c2, s2, f2, htr, hres, _, _, _, hfc⟩
      obtain ⟨F, hFle, hFres, hFiff⟩ := ihh (i + 1) c2 s2 f2
      refine ⟨F, by rcases hfc with ⟨h1, _⟩ | ⟨h1, _⟩ <;> omega, ?_, ?_⟩
      · rw [hres]; exact hFres
      · rcases hfc with ⟨hf2, hPn⟩ | ⟨hf2, hPi⟩
        · constructor
          · intro hF j hm
            rw [htr] at hm
            rcases List.mem_append.mp hm with h | h
            · exact hPn j h
            · exact (hFiff.mp (by omega)) j h
          · intro hall
            have hnt : ∀ j, Ev.failed j ∉ (runLoop args w existing (i + 1) rest c2 s2 f2).2 := by
              intro j hm
              exact hall j (by rw [htr]; exact List.mem_append_right P hm)
            have := hFiff.mpr hnt
            omega
        · constructor
          · intro hF
            exfalso
            omega
          · intro hall
            exfalso
            exact hall i (by rw [htr]; exact List.mem_append_left _ hPi)

theorem runLoop_counts (args : Args) (w : World) (existing : List String)
    (hpk : ∀ j, ∃ v, w.pick j = Except.ok v) (skills : List SourceSkill) :
    ∀ (i c s f : Nat), ∃ c2 f2 : Nat,
      Ev.done c2 (s + (skills.filter (matchSkip args existing)).length) f2 ∈
        (runLoop args w existing i skills c s f).2 := by
  induction skills with
  | nil => intro i c s f; exact ⟨c, f, by simp [runLoop]⟩
  | cons sk rest ihh =>
      intro i c s f
      rcases runLoop_cons_split args w existing i sk rest c s f (hpk i) with
        ⟨P, c2, s2, f2, htr, _, _, hPos, hNeg, _⟩
      by_cases hsk : args.skipExisting = true ∧ skillRepoUrl args sk ∈ existing
      · obtain ⟨_, hs2⟩ := hPos hsk
        obtain ⟨c3, f3, hmem⟩ := ihh (i + 1) c2 s2 f2
        refine ⟨c3, f3, ?_⟩
        rw [htr]
        have hfc : List.filter (matchSkip args existing) (sk :: rest) =
            sk :: List.filter (matchSkip args existing) rest := by
          simp [List.filter_cons, matchSkip, hsk]
        rw [hfc]
        have harith : s + (sk :: List.filter (matchSkip args existing) rest).length =
            s2 + (List.filter (matchSkip args existing) rest).length := by
          rw [hs2]; simp [List.length_cons]; omega
        rw [harith]
        exact List.mem_append_right P hmem
      · obtain ⟨_, hs2⟩ := hNeg hsk
        obtain ⟨c3, f3, hmem⟩ := ihh (i + 1) c2 s2 f2
        refine ⟨c3, f3, ?_⟩
        rw [htr]
        have hfc : List.filter (matchSkip args existing) (sk :: rest) =
            List.filter (matchSkip args existing) rest := by
          simp [List.filter_cons, matchSkip, hsk]
        rw [hfc, ← hs2]
        exact List.mem_append_right P hmem

theorem runLoop_items (args : Args) (w : World) (existing : List String)
    (hpk : ∀ j, ∃ v, w.pick j = Except.ok v) (skills : List SourceSkill) :
    ∀ (i c s f : Nat) (j : Nat) (hj : j < skills.length),
      (args.skipExisting = true ∧ skillRepoUrl args (skills.get ⟨j, hj⟩) ∈ existing →
        Ev.skip (i + j) (skills.get ⟨j, hj⟩).name ∈ (runLoop args w existing i skills c s f).2 ∧
        Ev.aiCall (i + j) ∉ (runLoop args w existing i skills c s f).2 ∧
        (∀ ls, Ev.createCall (i + j) ls ∉ (runLoop args w existing i skills c s f).2)) ∧
      (¬(args.skipExisting = true ∧ skillRepoUrl args (skills.get ⟨j, hj⟩) ∈ existing) →
        Ev.pick (i + j) ∈ (runLoop args w existing i skills c s f).2 ∧
        Ev.aiCall (i + j) ∈ (runLoop args w existing i skills c s f).2) := by
  induction skills with
  | nil => intro i c s f j hj; exact absurd hj (by simp)
  | cons sk rest ihh =>
      intro i c s f j hj
      rcases runLoop_cons_split args w existing i sk rest c s f (hpk i) with
        ⟨P, c2, s2, f2, htr, _, hidx, hPos, hNeg, _⟩
      cases j with
      | zero =>
          constructor
          · intro hsk0
            have hsk : args.skipExisting = true ∧ skillRepoUrl args sk ∈ existing := hsk0
            obtain ⟨hPeq, _⟩ := hPos hsk
            have htail : ∀ (x : Ev) (k : Nat), evIdx x = some k → k = i →
                x ∉ (runLoop args w existing (i + 1) rest c2 s2 f2).2 := by
              intro x k hk hki hmem
              have := runLoop_idx_ge args w existing rest (i + 1) c2 s2 f2 x hmem k hk
              omega
            refine ⟨?_, ?_, ?_⟩
            · rw [htr, hPeq]
              simp
            · rw [htr, hPeq]
              intro hm
              rcases List.mem_append.mp hm with h | h
              · simp at h
              · exact htail _ (i + 0) (by simp [evIdx]) (by omega) h
            · intro ls
              rw [htr, hPeq]
              intro hm
              rcases List.mem_append.mp hm with h | h
              · simp at h
              · exact htail _ (i + 0) (by simp [evIdx]) (by omega) h
          · intro hsk0
            have hsk : ¬(args.skipExisting = true ∧ skillRepoUrl args sk ∈ existing) := hsk0
            obtain ⟨⟨hp, ha⟩, _⟩ := hNeg hsk
            have hz : i + 0 = i := by omega
            constructor
            · rw [htr, hz]
              exact List.mem_append_left _ hp
            · rw [htr, hz]
              exact List.mem_append_left _ ha
      | succ k =>
          have hjr : k < rest.length := by
            have := hj
            simp [List.length_cons] at this
            omega
          have hget : (sk :: rest).get ⟨k + 1, hj⟩ = rest.get ⟨k, hjr⟩ := rfl
          have hadd : i + (k + 1) = (i + 1) + k := by omega
          have hmain := ihh (i + 1) c2 s2 f2 k hjr
          constructor
          · intro hsk0
            rw [hget] at hsk0
            obtain ⟨hskipmem, hnomem, hnocc⟩ := hmain.1 hsk0
            refine ⟨?_, ?_, ?_⟩
            · rw [htr, hget, hadd]
              exact List.mem_append_right P hskipmem
            · rw [htr, hadd]
              intro hm
              rcases List.mem_append.mp hm with h | h
              · have := hidx _ h ((i + 1) + k) (by simp [evIdx])
                omega
              · exact hnomem h
            · intro ls
              rw [htr, hadd]
              intro hm
              rcases List.mem_append.mp hm with h | h
              · have := hidx _ h ((i + 1) + k) (by simp [evIdx])
                omega
              · exact hnocc ls h
          · intro hsk0
            rw [hget] at hsk0
            obtain ⟨hp, ha⟩ := hmain.2 hsk0
            constructor
            · rw [htr, hadd]
              exact List.mem_append_right P hp
            · rw [htr, hadd]
              exact List.mem_append_right P ha

/-! Concrete argument sets, environments and worlds used to exercise the driver model. -/

def exArgsPlain : Args :=
  ⟨"anthropics/skills", "main", "skills", true, false, "owner/market", "skill-plugin",
    0, "", false, false, false, false, false, "v1"⟩

def exArgsDry : Args :=
  ⟨"anthropics/skills", "main", "skills", true, false, "owner/market", "skill-plugin",
    0, "", false, true, false, false, false, "v1"⟩

def exArgsSkip : Args :=
  ⟨"anthropics/skills", "main", "skills", true, false, "owner/market", "skill-plugin",
    0, "", true, true, false, false, false, "v1"⟩

def exEnvFull : EnvVars := ⟨"tok", "https://ai.example/v1", "k"⟩

def exEnvNoAi : EnvVars := ⟨"tok", "", "k"⟩

def exWorldDup : World :=
  ⟨[], [⟨"a", "skills/a", "u1"⟩, ⟨"b", "skills/b", "u2"⟩, ⟨"a", "skills/a2", "u3"⟩],
    fun _ => Except.ok ("SKILL.md", "m"), fun _ => Except.ok "d",
    fun _ _ => Except.ok (Json.obj [])⟩

def exWorldOne : World :=
  ⟨[], [⟨"a", "skills/a", "u1"⟩],
    fun _ => Except.ok ("SKILL.md", "m"), fun _ => Except.ok "d",
    fun _ _ => Except.ok (Json.obj [])⟩

def exWorldPickFail : World :=
  ⟨[], [⟨"a", "skills/a", "u1"⟩, ⟨"b", "skills/b", "u2"⟩],
    fun _ => Except.error "boom: download failed", fun _ => Except.ok "d",
    fun _ _ => Except.ok (Json.obj [])⟩

/-- C10: missing AI configuration (empty `AI_BASE_URL` or `AI_API_KEY` after stripping)
makes `main` return exit code 2 immediately, with no discovery and no issue listing
attempted; when the AI configuration is present and the target repository is well formed,
a dry run proceeds to discovery even though the GitHub token requirement is waived. -/
theorem mainModel_ai_config_guard :
    (∀ (args : Args) (env : EnvVars) (w : World),
      pyStrip env.aiBaseUrl = "" ∨ pyStrip env.aiApiKey = "" →
      mainModel args env w = (Except.ok 2, [])) ∧
    (∀ (args : Args) (env : EnvVars) (w : World),
      ¬(pyStrip env.aiBaseUrl = "" ∨ pyStrip env.aiApiKey = "") →
      args.dryRun = true →
      ¬(args.targetRepo = "" ∨ isSubList "/".data args.targetRepo.data = false) →
      Ev.discover ∈ (mainModel args env w).2) := by
  constructor
  · intro args env w h
    simp only [mainModel]
    rw [if_pos h]
  · intro args env w hai hdry htgt
    simp only [mainModel]
    rw [if_neg hai]
    rw [if_neg (fun hcon => by rw [hdry] at hcon; exact absurd hcon.2 (by simp))]
    rw [if_neg htgt]
    repeat' split
    all_goals simp

/-- Witness for C10 at concrete inputs: with an empty AI base URL the run exits with
code 2 and an empty trace; with full AI configuration a token-less dry run reaches
discovery. -/
theorem mainModel_ai_config_guard_witness :
    mainModel exArgsDry exEnvNoAi exWorldOne = (Except.ok 2, []) ∧
    Ev.discover ∈ (mainModel exArgsDry exEnvFull exWorldOne).2 :=
  ⟨mainModel_ai_config_guard.1 exArgsDry exEnvNoAi exWorldOne (Or.inl rfl),
   mainModel_ai_config_guard.2 exArgsDry exEnvFull exWorldOne (by decide) rfl (by decide)⟩

/-- C6: with the configuration checks passed and the duplicate-ID override unset,
duplicate skill names abort the run with exit code 2, reporting exactly the sorted
list of colliding names, before any per-item processing (no pick and no AI call in
the trace); with the override set, no duplicate abort ever appears in the trace. -/
theorem mainModel_duplicate_names (args : Args) (env : EnvVars) (w : World)
    (hai : ¬(pyStrip env.aiBaseUrl = "" ∨ pyStrip env.aiApiKey = ""))
    (htok : ¬(pyStrip env.githubToken = "" ∧ args.dryRun = false))
    (htgt : ¬(args.targetRepo = "" ∨ isSubList "/".data args.targetRepo.data = false)) :
    (args.allowDuplicateIds = false →
      dupNames (w.skills.map (fun s => s.name)) ≠ [] →
      mainModel args env w =
        (Except.ok 2,
          (if args.skipExisting = true then [Ev.fetchIssues "all" ""] else []) ++
            [Ev.discover, Ev.dupAbort (dupNames (w.skills.map (fun s => s.name)))]) ∧
      ∀ j, Ev.pick j ∉ (mainModel args env w).2 ∧ Ev.aiCall j ∉ (mainModel args env w).2) ∧
    (args.allowDuplicateIds = true →
      ∀ l, Ev.dupAbort l ∉ (mainModel args env w).2) := by
  constructor
  · intro hflag hdup
    have hcond : args.allowDuplicateIds = false ∧
        dupNames (w.skills.map (fun s => s.name)) ≠ [] := ⟨hflag, hdup⟩
    have hm : mainModel args env w =
        (Except.ok 2,
          (if args.skipExisting = true then [Ev.fetchIssues "all" ""] else []) ++
            [Ev.discover, Ev.dupAbort (dupNames (w.skills.map (fun s => s.name)))]) := by
      simp only [mainModel]
      rw [if_neg hai, if_neg htok, if_neg htgt, if_pos hcond]
      simp
    refine ⟨hm, ?_⟩
    intro j
    rw [hm]
    constructor <;> (split <;> simp)
  · intro hflag l
    simp only [mainModel]
    rw [if_neg hai, if_neg htok, if_neg htgt]
    rw [if_neg (fun hcon => by rw [hflag] at hcon; exact absurd hcon.1 (by simp))]
    repeat' split
    all_goals simp [runLoop_no_dupAbort]

/-- Witness for C6: skills named `["a", "b", "a"]` without the override abort with
exit code 2 reporting exactly `["a"]`, with a trace that stops at discovery. -/
theorem mainModel_duplicate_names_witness :
    mainModel exArgsPlain exEnvFull exWorldDup =
      (Except.ok 2, [Ev.discover, Ev.dupAbort ["a"]]) :=
  ((mainModel_duplicate_names exArgsPlain exEnvFull exWorldDup
      (by decide) (by decide) (by decide)).1 rfl (by decide)).1.trans (by rfl)

/-- C3 counterexample: a failure while picking an item's markdown content (modelled as
`pick` returning an error, matching `_pick_skill_markdown`/`_http_text` raising outside
the per-item `try`) aborts the whole run: the result is an error, no later item is
processed, and no failure is counted — the claim says a per-item failure never aborts
the run. -/
theorem mainModel_pick_abort_counterexample :
    mainModel exArgsPlain exEnvFull exWorldPickFail =
      (Except.error "boom: download failed", [Ev.discover, Ev.pick 0]) := by
  rfl

/-- C3 (amended): a failure during content picking aborts the run immediately (the call
sits before the per-item `try`), while with content picking succeeding every item is
processed to completion — summarization and creation failures only mark the item failed —
and the final exit code is 1 exactly when some item failed, 0 otherwise. -/
theorem mainLoop_per_item_failure_amended :
    (∀ (args : Args) (w : World) (existing : List String) (i : Nat)
        (sk : SourceSkill) (rest : List SourceSkill) (c s f : Nat) (e : String),
        ¬(args.skipExisting = true ∧ skillRepoUrl args sk ∈ existing) →
        w.pick i = Except.error e →
        runLoop args w existing i (sk :: rest) c s f = (Except.error e, [Ev.pick i])) ∧
    (∀ (args : Args) (w : World) (existing : List String) (skills : List SourceSkill),
        (∀ j, ∃ v, w.pick j = Except.ok v) →
        ∃ f2 : Nat,
          (runLoop args w existing 0 skills 0 0 0).1 =
            Except.ok (if f2 = 0 then 0 else 1) ∧
          (f2 = 0 ↔ ∀ j, Ev.failed j ∉ (runLoop args w existing 0 skills 0 0 0).2) ∧
          (∀ (j : Nat) (hj : j < skills.length),
            Ev.skip j (skills.get ⟨j, hj⟩).name ∈ (runLoop args w existing 0 skills 0 0 0).2 ∨
            Ev.aiCall j ∈ (runLoop args w existing 0 skills 0 0 0).2)) := by
  constructor
  · intro args w existing i sk rest c s f e hsk hp
    exact runLoop_cons_pickErr hsk hp
  · intro args w existing skills hpk
    obtain ⟨f2, _, hres, hiff⟩ := runLoop_result args w existing hpk skills 0 0 0 0
    refine ⟨f2, hres, hiff, ?_⟩
    intro j hj
    by_cases hsk : args.skipExisting = true ∧
        skillRepoUrl args (skills.get ⟨j, hj⟩) ∈ existing
    · left
      have h := (runLoop_items args w existing hpk skills 0 0 0 0 j hj).1 hsk
      simpa using h.1
    · right
      have h := (runLoop_items args w existing hpk skills 0 0 0 0 j hj).2 hsk
      simpa using h.2

/-- Witness for the amended C3: a concrete aborting pick failure, and a concrete
all-picks-succeed run whose exit code is determined by the failed counter. -/
theorem mainLoop_per_item_failure_amended_witness :
    runLoop exArgsPlain exWorldPickFail [] 0 [⟨"a", "skills/a", "u1"⟩] 0 0 0 =
      (Except.error "boom: download failed", [Ev.pick 0]) ∧
    ∃ f2 : Nat,
      (runLoop exArgsPlain exWorldDup [] 0 exWorldDup.skills 0 0 0).1 =
        Except.ok (if f2 = 0 then 0 else 1) :=
  ⟨mainLoop_per_item_failure_amended.1 exArgsPlain exWorldPickFail [] 0
      ⟨"a", "skills/a", "u1"⟩ [] 0 0 0 "boom: download failed" (by decide) rfl,
   Exists.imp (fun _ h => h.1)
     (mainLoop_per_item_failure_amended.2 exArgsPlain exWorldDup [] exWorldDup.skills
       (fun _ => ⟨("SKILL.md", "m"), rfl⟩))⟩

/-- C8: with skip-existing set (and the other gates passed: no duplicate abort, no
only-skill filter, no limit, all content picks succeeding), the run first fetches the
existing issues (state `all`, no label filter) before discovery, every source item whose
computed repository URL was collected from an existing issue body gets a skip event and
never reaches summarization or creation, every other item reaches content picking and
summarization, and the final tally counts exactly the matched items as skipped. -/
theorem mainModel_skip_existing (args : Args) (env : EnvVars) (w : World)
    (hai : ¬(pyStrip env.aiBaseUrl = "" ∨ pyStrip env.aiApiKey = ""))
    (htok : ¬(pyStrip env.githubToken = "" ∧ args.dryRun = false))
    (htgt : ¬(args.targetRepo = "" ∨ isSubList "/".data args.targetRepo.data = false))
    (hskip : args.skipExisting = true)
    (hdup : ¬(args.allowDuplicateIds = false ∧ dupNames (w.skills.map (fun s => s.name)) ≠ []))
    (honly : pyStrip args.onlySkill = "")
    (hlim : args.limit = 0)
    (hpk : ∀ j, ∃ v, w.pick j = Except.ok v) :
    (∃ t, (mainModel args env w).2 = Ev.fetchIssues "all" "" :: Ev.discover :: t) ∧
    (∀ (j : Nat) (hj : j < w.skills.length),
      (skillRepoUrl args (w.skills.get ⟨j, hj⟩) ∈ collectExistingUrls w.issues →
        Ev.skip j (w.skills.get ⟨j, hj⟩).name ∈ (mainModel args env w).2 ∧
        Ev.aiCall j ∉ (mainModel args env w).2 ∧
        (∀ ls, Ev.createCall j ls ∉ (mainModel args env w).2)) ∧
      (skillRepoUrl args (w.skills.get ⟨j, hj⟩) ∉ collectExistingUrls w.issues →
        Ev.pick j ∈ (mainModel args env w).2 ∧
        Ev.aiCall j ∈ (mainModel args env w).2)) ∧
    (∃ c2 f2, Ev.done c2
        ((w.skills.filter (matchSkip args (collectExistingUrls w.issues))).length) f2 ∈
      (mainModel args env w).2) := by
  have hm : mainModel args env w =
      ((runLoop args w (collectExistingUrls w.issues) 0 w.skills 0 0 0).1,
        Ev.fetchIssues "all" "" :: Ev.discover ::
          (runLoop args w (collectExistingUrls w.issues) 0 w.skills 0 0 0).2) := by
    simp only [mainModel]
    rw [if_neg hai, if_neg htok, if_neg htgt, if_neg hdup]
    rw [honly, hlim, hskip]
    simp
  refine ⟨⟨(runLoop args w (collectExistingUrls w.issues) 0 w.skills 0 0 0).2, by rw [hm]⟩,
    ?_, ?_⟩
  · intro j hj
    constructor
    · intro hurl
      have h := (runLoop_items args w (collectExistingUrls w.issues) hpk w.skills
        0 0 0 0 j hj).1 ⟨hskip, hurl⟩
      simp only [Nat.zero_add] at h
      obtain ⟨h1, h2, h3⟩ := h
      refine ⟨?_, ?_, ?_⟩
      · rw [hm]
        exact List.mem_cons_of_mem _ (List.mem_cons_of_mem _ h1)
      · rw [hm]
        simp [List.mem_cons, h2]
      · intro ls
        rw [hm]
        simp [List.mem_cons, h3]
    · intro hurl
      have h := (runLoop_items args w (collectExistingUrls w.issues) hpk w.skills
        0 0 0 0 j hj).2 (fun hcon => hurl hcon.2)
      simp only [Nat.zero_add] at h
      obtain ⟨h1, h2⟩ := h
      exact ⟨by rw [hm]; exact List.mem_cons_of_mem _ (List.mem_cons_of_mem _ h1),
        by rw [hm]; exact List.mem_cons_of_mem _ (List.mem_cons_of_mem _ h2)⟩
  · obtain ⟨c2, f2, hmem⟩ := runLoop_counts args w (collectExistingUrls w.issues) hpk
      w.skills 0 0 0 0
    refine ⟨c2, f2, ?_⟩
    rw [hm]
    simp only [Nat.zero_add] at hmem
    exact List.mem_cons_of_mem _ (List.mem_cons_of_mem _ hmem)

/-- Witness for C8 at a concrete input: a token-less dry run with skip-existing set
fetches the existing issues before discovery. -/
theorem mainModel_skip_existing_witness :
    ∃ t, (mainModel exArgsSkip exEnvFull exWorldOne).2 =
      Ev.fetchIssues "all" "" :: Ev.discover :: t :=
  (mainModel_skip_existing exArgsSkip exEnvFull exWorldOne
    (by decide) (by decide) (by decide) rfl (by decide) rfl rfl
    (fun _ => ⟨("SKILL.md", "m"), rfl⟩)).1

end Operit
